import Mathlib

/-!
Verification of the pyrant client library (Tokyo Tyrant protocol codec and
query layer) against its natural-language specification.

The Python 2 source in `pyrant/protocol.py`, `pyrant/query.py`,
`pyrant/exceptions.py` and `pyrant/utils/__init__.py` is shallowly embedded
below: pure fragments become Lean functions, byte strings become `List Nat`
(each element a byte value), Python `int`/`long` become `Int`, Python floats
are modelled as exact rationals (`Rat`) where the relevant operations are
exact, and raising an exception becomes returning `Except PyExc`.
-/

namespace Pyrant

/-- Python exception kinds raised by the embedded code.  `tyrantError` covers
the `TyrantError` hierarchy of `pyrant/exceptions.py` (the "ProtocolError"
taxonomy of the spec); the other constructors are builtin Python exception
classes, none of which is a `TyrantError` subclass. -/
inductive TyrantKind where
  | success
  | invalidOperation
  | hostNotFound
  | connectionRefused
  | sendError
  | receiveError
  | recordExists
  | recordNotFound
  | miscellaneousError
  deriving Repr, DecidableEq

inductive PyExc where
  | typeError (msg : String)
  | valueError (msg : String)
  | indexError
  | nameError (msg : String)
  | assertionError (msg : String)
  | tyrantError (kind : TyrantKind)
  deriving Repr, DecidableEq

/-- True exactly for the `TyrantError` hierarchy (spec: "ProtocolError kind"). -/
def PyExc.isTyrantError : PyExc → Bool
  | .tyrantError _ => true
  | _ => false

/-- True for `ValueError`-class exceptions. -/
def PyExc.isValueError : PyExc → Bool
  | .valueError _ => true
  | _ => false

/-! ## Byte-level helpers -/

/-- Big-endian base-256 rendering of `n` on `width` bytes, as produced by
`struct.pack` with format characters `I` (width 4) and `Q` (width 8). -/
def beBytes (width n : Nat) : List Nat :=
  (List.range width).map (fun i => n / 256 ^ (width - 1 - i) % 256)

/-- `struct.pack(">I", n)` on a nonnegative in-range value; out-of-range
values (which raise in Python and never occur at the call sites) are reduced
modulo 2^32. -/
def u32Bytes (n : Int) : List Nat :=
  beBytes 4 (n.emod (2 ^ 32)).toNat

/-- `struct.pack(">Q", n)`, analogously reduced modulo 2^64. -/
def u64Bytes (n : Int) : List Nat :=
  beBytes 8 (n.emod (2 ^ 64)).toNat

/-- UTF-8 encoding of one Unicode code point (`unicode.encode("UTF-8")`
acts code point by code point). -/
def utf8Char (c : Nat) : List Nat :=
  if c < 0x80 then [c]
  else if c < 0x800 then [0xc0 + c / 64, 0x80 + c % 64]
  else if c < 0x10000 then
    [0xe0 + c / 4096, 0x80 + c / 64 % 64, 0x80 + c % 64]
  else
    [0xf0 + c / 262144, 0x80 + c / 4096 % 64, 0x80 + c / 64 % 64, 0x80 + c % 64]

/-- `u.encode("UTF-8")` for a unicode string given by its code points. -/
def utf8Encode (cs : List Nat) : List Nat :=
  (cs.map utf8Char).flatten

/-- ASCII bytes of a Lean string (used for `str(v)` of integers, whose
decimal rendering agrees between Python and `toString : Int → String`). -/
def asciiOf (s : String) : List Nat :=
  s.toList.map Char.toNat

/-! ## `protocol._pack` (claim C1)

`_pack(code, *args)` walks the argument list once, accumulating a
`struct` format string (one `I` per `int`, one `Q` per `long`, applied in
argument order) and a payload buffer `buf` (raw bytes of `str` arguments,
UTF-8 bytes of `unicode` arguments, and length-prefixed element pairs for
`list`/`tuple` arguments, in argument order).  The result is the packed
header fields followed by `buf`. -/

/-- An element of a `list`/`tuple` argument.  `_pack` encodes `unicode`
elements as UTF-8 and renders any other element with `str(v)`; the only
non-string elements passed by the library are integers (`misc("setindex")`),
rendered in decimal. -/
inductive PyListElem where
  | ustr (codepoints : List Nat)
  | bstr (bytes : List Nat)
  | intv (n : Int)
  deriving Repr, DecidableEq

/-- A positional argument of `_pack`, covering exactly the `isinstance`
branches of the source: `int`, `str`, `unicode`, `long`, `list`/`tuple`. -/
inductive PyArg where
  | int (n : Int)
  | bstr (bytes : List Nat)
  | ustr (codepoints : List Nat)
  | long (n : Int)
  | list (elems : List PyListElem)
  deriving Repr, DecidableEq

/-- Bytes of one list element after the `unicode`/`str(v)` normalisation. -/
def elemBytes : PyListElem → List Nat
  | .ustr cs => utf8Encode cs
  | .bstr bs => bs
  | .intv n => asciiOf (toString n)

/-- `struct.pack(">I", len(v)) + v`, appended to `buf` for each element of a
list argument. -/
def listPayload (elems : List PyListElem) : List Nat :=
  (elems.map (fun e => beBytes 4 (elemBytes e).length ++ elemBytes e)).flatten

def MAGIC_NUMBER : Nat := 0xc8

/-- The loop of `_pack`: left-to-right accumulation of the numeric header
fields (as byte lists, in argument order) and of the string payload buffer.
Recursion on the right corresponds to the imperative `fmt += ...` /
`buf += ...` appends of the source. -/
def packFold : List PyArg → List (List Nat) × List Nat
  | [] => ([], [])
  | a :: rest =>
    let acc := packFold rest
    match a with
    | .int n => (u32Bytes n :: acc.1, acc.2)
    | .bstr bs => (acc.1, bs ++ acc.2)
    | .ustr cs => (acc.1, utf8Encode cs ++ acc.2)
    | .long n => (u64Bytes n :: acc.1, acc.2)
    | .list es => (acc.1, listPayload es ++ acc.2)

/-- `_pack(code, *args)`: magic byte, opcode byte, packed numeric fields,
then the payload buffer. -/
def pack (code : Nat) (args : List PyArg) : List Nat :=
  let acc := packFold args
  MAGIC_NUMBER :: code % 256 :: (acc.1.flatten ++ acc.2)

/-- The packed-buffer layout exactly as claim C1 words it: magic, opcode,
one big-endian unsigned **32-bit** field per integer argument in argument
order, then the raw bytes of every string argument (lists flattened in
place as length-prefixed pairs). -/
def packClaimed (code : Nat) (args : List PyArg) : List Nat :=
  MAGIC_NUMBER :: code % 256 ::
    ((args.filterMap (fun a => match a with
        | .int n => some (u32Bytes n)
        | .long n => some (u32Bytes n)
        | _ => none)).flatten ++
     (args.filterMap (fun a => match a with
        | .bstr bs => some bs
        | .ustr cs => some (utf8Encode cs)
        | .list es => some (listPayload es)
        | _ => none)).flatten)

/-- The layout amended as the code forces: a Python `int` argument yields a
32-bit field but a Python `long` argument yields a **64-bit** field
(format character `Q`); everything else as in the claim. -/
def packAmended (code : Nat) (args : List PyArg) : List Nat :=
  MAGIC_NUMBER :: code % 256 ::
    ((args.filterMap (fun a => match a with
        | .int n => some (u32Bytes n)
        | .long n => some (u64Bytes n)
        | _ => none)).flatten ++
     (args.filterMap (fun a => match a with
        | .bstr bs => some bs
        | .ustr cs => some (utf8Encode cs)
        | .list es => some (listPayload es)
        | _ => none)).flatten)

/-! ## `exceptions.get_for_code` and `_TyrantSocket.send` (claim C2) -/

/-- The `ERROR_CODE_TO_CLASS` mapping of `pyrant/exceptions.py`. -/
def ERROR_CODE_TO_CLASS : List (Int × TyrantKind) :=
  [(0, .success),
   (1, .invalidOperation),
   (2, .hostNotFound),
   (3, .connectionRefused),
   (4, .sendError),
   (5, .receiveError),
   (6, .recordExists),
   (7, .recordNotFound),
   (9999, .miscellaneousError)]

/-- `exceptions.get_for_code(error_code)` for an integer argument.  The
`int(error_code)` conversion never fails on an integer, so the `TypeError`
branch of the source is unreachable here; an unknown code hits the
`KeyError` branch and raises `ValueError`.  A successful lookup *returns*
the exception instance (it does not raise), hence the `.ok` result. -/
def get_for_code (code : Int) : Except PyExc TyrantKind :=
  match ERROR_CODE_TO_CLASS.find? (fun p => p.1 == code) with
  | some p => .ok p.2
  | none => .error (.valueError ("Unknown error code \"" ++ toString code ++ "\""))

/-- Observable socket activity of one `send` call: the bytes written and
the number of status bytes read back. -/
structure SendEffect where
  written : List Nat
  bytesRead : Nat
  deriving Repr, DecidableEq

/-- The status-byte handling of `_TyrantSocket.send`: `fail_code` is the
byte read from the socket; zero falls through, nonzero raises the mapped
exception (or the `ValueError` that `get_for_code` raises for unknown
codes). -/
def sendOutcome (status : Nat) : Except PyExc Unit :=
  if status ≠ 0 then
    match get_for_code (status : Int) with
    | .ok k => .error (.tyrantError k)
    | .error e => .error e
  else .ok ()

/-- `_TyrantSocket.send(*args, sync=sync)` against a peer whose next
available byte is `status`: packs and writes the request, then reads and
interprets exactly one status byte when `sync` is true and nothing
otherwise. -/
def send (code : Nat) (args : List PyArg) (sync : Bool) (status : Nat) :
    SendEffect × Except PyExc Unit :=
  if sync then (⟨pack code args, 1⟩, sendOutcome status)
  else (⟨pack code args, 0⟩, .ok ())

/-! ## `TyrantProtocol.adddouble` and `_TyrantSocket.get_double` (claim C3)

Python floats are modelled as exact rationals.  Every float is a (dyadic)
rational, `math.modf` is exact, and at the counterexample input below the
scaled product is also exactly representable in IEEE 754 binary64, so the
exact-rational model and the floating-point execution agree there. -/

/-- Python `int(x)`/`long(x)` on a real value: truncation toward zero
(`Int.tdiv` is truncating division). -/
def pyTrunc (q : Rat) : Int := q.num.tdiv q.den

/-- Python 2 `round(x)` (to zero digits): nearest integer, halves away
from zero. -/
def pyRound (q : Rat) : Int := if 0 ≤ q then ⌊q + 1 / 2⌋ else -⌊-q + 1 / 2⌋

/-- `math.modf(num)` returns `(fractional part, integer part)`, both
carrying the sign of `num`; the integer part is the truncation. -/
def modf (q : Rat) : Rat × Rat := (q - (pyTrunc q : Rat), (pyTrunc q : Rat))

/-- The two numeric fields computed by `adddouble` before packing:
`fracpart, intpart = math.modf(num); fracpart, intpart =
int(fracpart * 1e12), int(intpart)`, sent as `(intpart, fracpart)`. -/
def adddoubleFields (num : Rat) : Int × Int :=
  let m := modf num
  (pyTrunc m.2, pyTrunc (m.1 * 10 ^ 12))

/-- The encoding exactly as claim C3 words it: the fractional field uses
`round(fractional_component * 1e12)`. -/
def adddoubleFieldsClaimed (num : Rat) : Int × Int :=
  (pyTrunc num, pyRound ((num - (pyTrunc num : Rat)) * 10 ^ 12))

/-- `_TyrantSocket.get_double`: two big-endian uint64 reads combined as
`intpart + fracpart * 1e-12` (`1e-12` idealised as the exact rational). -/
def getDouble (intpart fracpart : Nat) : Rat :=
  (intpart : Rat) + (fracpart : Rat) * (1 / 10 ^ 12)

/-- The same combination on the signed field values produced by
`adddoubleFields` (used to state the encode/decode round trip). -/
def decodeFields (intpart fracpart : Int) : Rat :=
  (intpart : Rat) + (fracpart : Rat) * (1 / 10 ^ 12)

/-! ## Query expressions, `utils.from_python`, and the condition compiler
(claim C4)

Python expression values passed to `filter`/`exclude` are modelled by
`PyExpr`.  Python floats are omitted: no verified claim passes a float
condition expression, and every numeric expression in the claims is an
`int`.  Python booleans are a distinct constructor, but — as in Python,
where `bool` is a subclass of `int` — they satisfy the
`isinstance(value, (int, float))` test. -/

inductive PyExpr where
  | int (n : Int)
  | str (s : String)
  | bool (b : Bool)
  | list (elems : List PyExpr)
  | none
  deriving Repr

mutual

/-- Structural equality test for `PyExpr` (the automatic derivation does
not handle the nested `List`). -/
def PyExpr.beq : PyExpr → PyExpr → Bool
  | .int a, .int b => a == b
  | .str a, .str b => a == b
  | .bool a, .bool b => a == b
  | .none, .none => true
  | .list a, .list b => PyExpr.beqList a b
  | _, _ => false

def PyExpr.beqList : List PyExpr → List PyExpr → Bool
  | [], [] => true
  | a :: as, b :: bs => PyExpr.beq a b && PyExpr.beqList as bs
  | _, _ => false

end

instance : BEq PyExpr := ⟨PyExpr.beq⟩

mutual

/-- Decidable equality for `PyExpr`, written out by hand because of the
nested `List`. -/
def PyExpr.decEq : (a b : PyExpr) → Decidable (a = b)
  | .int a, .int b =>
    match Int.decEq a b with
    | isTrue h => isTrue (h ▸ rfl)
    | isFalse h => isFalse (fun hh => h (PyExpr.int.inj hh))
  | .str a, .str b =>
    match String.decEq a b with
    | isTrue h => isTrue (h ▸ rfl)
    | isFalse h => isFalse (fun hh => h (PyExpr.str.inj hh))
  | .bool a, .bool b =>
    match Bool.decEq a b with
    | isTrue h => isTrue (h ▸ rfl)
    | isFalse h => isFalse (fun hh => h (PyExpr.bool.inj hh))
  | .none, .none => isTrue rfl
  | .list as, .list bs =>
    match PyExpr.decEqList as bs with
    | isTrue h => isTrue (h ▸ rfl)
    | isFalse h => isFalse (fun hh => h (PyExpr.list.inj hh))
  | .int _, .str _ => isFalse (fun h => PyExpr.noConfusion h)
  | .int _, .bool _ => isFalse (fun h => PyExpr.noConfusion h)
  | .int _, .list _ => isFalse (fun h => PyExpr.noConfusion h)
  | .int _, .none => isFalse (fun h => PyExpr.noConfusion h)
  | .str _, .int _ => isFalse (fun h => PyExpr.noConfusion h)
  | .str _, .bool _ => isFalse (fun h => PyExpr.noConfusion h)
  | .str _, .list _ => isFalse (fun h => PyExpr.noConfusion h)
  | .str _, .none => isFalse (fun h => PyExpr.noConfusion h)
  | .bool _, .int _ => isFalse (fun h => PyExpr.noConfusion h)
  | .bool _, .str _ => isFalse (fun h => PyExpr.noConfusion h)
  | .bool _, .list _ => isFalse (fun h => PyExpr.noConfusion h)
  | .bool _, .none => isFalse (fun h => PyExpr.noConfusion h)
  | .list _, .int _ => isFalse (fun h => PyExpr.noConfusion h)
  | .list _, .str _ => isFalse (fun h => PyExpr.noConfusion h)
  | .list _, .bool _ => isFalse (fun h => PyExpr.noConfusion h)
  | .list _, .none => isFalse (fun h => PyExpr.noConfusion h)
  | .none, .int _ => isFalse (fun h => PyExpr.noConfusion h)
  | .none, .str _ => isFalse (fun h => PyExpr.noConfusion h)
  | .none, .bool _ => isFalse (fun h => PyExpr.noConfusion h)
  | .none, .list _ => isFalse (fun h => PyExpr.noConfusion h)

def PyExpr.decEqList : (as bs : List PyExpr) → Decidable (as = bs)
  | [], [] => isTrue rfl
  | a :: as, b :: bs =>
    match PyExpr.decEq a b with
    | isTrue h1 =>
      match PyExpr.decEqList as bs with
      | isTrue h2 => isTrue (h1 ▸ h2 ▸ rfl)
      | isFalse h2 => isFalse (fun hh => h2 (List.cons.inj hh).2)
    | isFalse h1 => isFalse (fun hh => h1 (List.cons.inj hh).1)
  | [], _ :: _ => isFalse (fun h => List.noConfusion h)
  | _ :: _, [] => isFalse (fun h => List.noConfusion h)

end

instance : DecidableEq PyExpr := PyExpr.decEq

instance {ε α : Type} [DecidableEq ε] [DecidableEq α] :
    DecidableEq (Except ε α) := fun
  | .ok a, .ok b =>
    match decEq a b with
    | isTrue h => isTrue (h ▸ rfl)
    | isFalse h => isFalse (fun hh => h (Except.ok.inj hh))
  | .error a, .error b =>
    match decEq a b with
    | isTrue h => isTrue (h ▸ rfl)
    | isFalse h => isFalse (fun hh => h (Except.error.inj hh))
  | .ok _, .error _ => isFalse (fun h => Except.noConfusion h)
  | .error _, .ok _ => isFalse (fun h => Except.noConfusion h)

/-- `isinstance(v, bool)`. -/
def PyExpr.isBool : PyExpr → Bool
  | .bool _ => true
  | _ => false

/-- `isinstance(v, (int, float))`; Python booleans are ints. -/
def PyExpr.isNumeric : PyExpr → Bool
  | .int _ => true
  | .bool _ => true
  | _ => false

/-- `isinstance(v, basestring)`. -/
def PyExpr.isString : PyExpr → Bool
  | .str _ => true
  | _ => false

/-- `hasattr(v, "__iter__")`: in Python 2 this holds for lists/tuples but
not for strings or numbers. -/
def PyExpr.hasIter : PyExpr → Bool
  | .list _ => true
  | _ => false

/-- The apostrophe character, as Python quotes strings inside `repr`. -/
def pyQuote : String := String.singleton (Char.ofNat 39)

mutual

/-- Python `repr(x)` for the expression values above (used by `str` on a
list, which formats its elements with `repr`). -/
def pyReprE : PyExpr → String
  | .int n => toString n
  | .str s => pyQuote ++ s ++ pyQuote
  | .bool b => cond b "True" "False"
  | .none => "None"
  | .list es => "[" ++ ", ".intercalate (pyReprList es) ++ "]"

def pyReprList : List PyExpr → List String
  | [] => []
  | e :: es => pyReprE e :: pyReprList es

end

/-- Python `unicode(x)`/`str(x)` for the expression values above. -/
def pyUnicode : PyExpr → String
  | .int n => toString n
  | .str s => s
  | .bool b => cond b "True" "False"
  | .none => "None"
  | .list es => pyReprE (.list es)

/-- `utils.from_python`: `None` and `False` become the empty string,
`True` becomes the integer 1, anything else is returned unchanged. -/
def from_python : PyExpr → PyExpr
  | .none => .str ""
  | .bool b => if b then .int 1 else .str ""
  | v => v

/-! Query-condition operator constants of `TyrantProtocol`. -/

def RDBQCSTREQ : Nat := 0
def RDBQCSTRINC : Nat := 1
def RDBQCSTRBW : Nat := 2
def RDBQCSTREW : Nat := 3
def RDBQCSTRAND : Nat := 4
def RDBQCSTROR : Nat := 5
def RDBQCSTROREQ : Nat := 6
def RDBQCSTRRX : Nat := 7
def RDBQCNUMEQ : Nat := 8
def RDBQCNUMGT : Nat := 9
def RDBQCNUMGE : Nat := 10
def RDBQCNUMLT : Nat := 11
def RDBQCNUMLE : Nat := 12
def RDBQCNUMBT : Nat := 13
def RDBQCNUMOREQ : Nat := 14
def RDBQCFTSPH : Nat := 15
def RDBQCFTSAND : Nat := 16
def RDBQCFTSOR : Nat := 17
def RDBQCFTSEX : Nat := 18
def RDBQCNEGATE : Nat := 1 <<< 24
def RDBQCNOIDX : Nat := 1 <<< 25

/-! Order-type and metasearch-type constants of `TyrantProtocol`. -/

def RDBQOSTRASC : Nat := 0
def RDBQOSTRDESC : Nat := 1
def RDBQONUMASC : Nat := 2
def RDBQONUMDESC : Nat := 3
def TDBMSUNION : Nat := 0
def TDBMSISECT : Nat := 1
def TDBMSDIFF : Nat := 2

/-- A `Lookup` definition of `pyrant/query.py`: operator constant, accepted
shape flags, optional custom value (`ExistanceLookup` sets
`has_custom_value`), and optional element-count bounds. -/
structure Lookup where
  operator : Nat
  iterable : Bool := false
  string : Bool := false
  numeric : Bool := false
  boolean : Bool := false
  hasCustomValue : Bool := false
  value : PyExpr := PyExpr.none
  minArgs : Option Nat := Option.none
  maxArgs : Option Nat := Option.none
  deriving Repr, DecidableEq

/-- `Lookup.accepts(value)`: for an iterable definition, non-iterables are
rejected and a nonempty iterable is replaced by its first element (an empty
one stays as is, matching the `if value:` truthiness test); then each
enabled shape flag must hold of the (possibly replaced) value. -/
def Lookup.accepts (d : Lookup) (value : PyExpr) : Bool :=
  match (if d.iterable then
           match value with
           | .list [] => some (PyExpr.list [])
           | .list (e :: _) => some e
           | _ => Option.none
         else some value) with
  | Option.none => false
  | some v =>
    (!d.boolean || v.isBool) && (!d.numeric || v.isNumeric) &&
      (!d.string || v.isString)

/-- `Lookup.validate(value)`: element-count constraints, checked only for
iterables, with the truthiness quirk of the source (`if self.min_args and
...`): a bound of `None` — and a bound of 0 — is not checked. -/
def Lookup.validate (d : Lookup) (value : PyExpr) : Except PyExc PyExpr :=
  match value with
  | .list es =>
    if (match d.minArgs with
        | some m => decide (m ≠ 0 ∧ es.length < m)
        | _ => false) then
      .error (.valueError
        ("expected at least " ++ toString (d.minArgs.getD 0) ++ " arguments"))
    else if (match d.maxArgs with
        | some m => decide (m ≠ 0 ∧ m < es.length)
        | _ => false) then
      .error (.valueError
        ("expected at most " ++ toString (d.maxArgs.getD 0) ++ " arguments"))
    else .ok value
  | _ => .ok value

/-- The `LOOKUP_DEFINITIONS` table of `Condition`, keyed by lookup name.
The source also maps the key `None` to the `is` definitions; a lookup name
is always a string here because `Condition._parse_lookup` substitutes
`"is"` when no `__` suffix is present. -/
def LOOKUP_DEFINITIONS : String → Option (List Lookup)
  | "between" => some [{ operator := RDBQCNUMBT, iterable := true, numeric := true, minArgs := some 2, maxArgs := some 2 }]
  | "contains" => some [{ operator := RDBQCSTRINC, string := true }, { operator := RDBQCSTRAND, iterable := true, string := true }]
  | "contains_any" => some [{ operator := RDBQCSTROR, iterable := true, string := true }]
  | "endswith" => some [{ operator := RDBQCSTREW, string := true }]
  | "exists" => some [{ operator := RDBQCSTRRX, boolean := true, hasCustomValue := true, value := PyExpr.str "" }]
  | "gt" => some [{ operator := RDBQCNUMGT, numeric := true }]
  | "gte" => some [{ operator := RDBQCNUMGE, numeric := true }]
  | "in" => some [{ operator := RDBQCSTROREQ, iterable := true, string := true }, { operator := RDBQCNUMOREQ, iterable := true, numeric := true }]
  | "is" => some [{ operator := RDBQCNUMEQ, numeric := true }, { operator := RDBQCSTREQ }]
  | "like" => some [{ operator := RDBQCFTSPH, string := true }, { operator := RDBQCFTSAND, iterable := true, string := true }]
  | "like_any" => some [{ operator := RDBQCFTSOR, iterable := true, string := true }]
  | "lt" => some [{ operator := RDBQCNUMLT, numeric := true }]
  | "lte" => some [{ operator := RDBQCNUMLE, numeric := true }]
  | "matches" => some [{ operator := RDBQCSTRRX, string := true }]
  | "search" => some [{ operator := RDBQCFTSEX, string := true }]
  | "startswith" => some [{ operator := RDBQCSTRBW, string := true }]
  | _ => Option.none

/-- A listing of the valid lookup names for the `NameError` message; the
source joins the dict keys in hash order, which is not asserted by any
theorem below. -/
def availableLookups : String :=
  ", ".intercalate ["between", "contains", "contains_any", "endswith",
    "exists", "gt", "gte", "in", "is", "like", "like_any", "lt", "lte",
    "matches", "search", "startswith", "None"]

/-- A query condition: column name, normalised lookup name, expression and
negation flag (`query.Condition`). -/
structure Condition where
  name : String
  lookup : String
  expr : PyExpr
  negate : Bool := false
  deriving Repr, DecidableEq

/-- First occurrence split: `splitOnce sep cs = some (before, after)` when
`sep` occurs in `cs` (kernel-friendly version of `split(sep, 1)`). -/
def splitOnce (sep : List Char) : List Char → Option (List Char × List Char)
  | [] => Option.none
  | c :: rest =>
    if sep.isPrefixOf (c :: rest) then some ([], (c :: rest).drop sep.length)
    else match splitOnce sep rest with
      | some p => some (c :: p.1, p.2)
      | Option.none => Option.none

/-- `Condition._parse_lookup`: `"foo__contains"` becomes
`("foo", "contains")`; a name without `__` gets the default lookup `is`. -/
def parseLookup (lookup : String) : String × String :=
  match splitOnce [Char.ofNat 95, Char.ofNat 95] lookup.toList with
  | some p => (String.mk p.1, String.mk p.2)
  | Option.none => (lookup, "is")

/-- `Condition.__init__`. -/
def Condition.make (lookup : String) (expr : PyExpr) (negate : Bool := false) :
    Condition :=
  let p := parseLookup lookup
  ⟨p.1, p.2, expr, negate⟩

/-- The `for definition in definitions` loop of `Condition.prepare`:
first accepted definition wins; a validation failure re-raises `ValueError`
with a contextual message and does not fall through to later definitions. -/
def prepareLoop (c : Condition) : List Lookup → Except PyExc (String × Nat × PyExpr)
  | [] => .error (.valueError
      ("could not find a definition for lookup \"" ++ c.lookup ++
        "\" suitable for value \"" ++ pyUnicode c.expr ++ "\""))
  | d :: rest =>
    if d.accepts c.expr then
      match d.validate c.expr with
      | .error (.valueError msg) =>
        .error (.valueError
          ("Bad lookup " ++ c.name ++ "__" ++ c.lookup ++ "=" ++
            (if c.expr.hasIter then pyUnicode c.expr
             else "\"" ++ pyUnicode c.expr ++ "\"") ++ ": " ++ msg))
      | .error e => .error e
      | .ok value0 =>
        let negate1 :=
          if d.hasCustomValue then
            (match value0 with
             | .bool b => if !b then !c.negate else c.negate
             | _ => c.negate)
          else c.negate
        let value1 := if d.hasCustomValue then d.value else value0
        let op := if negate1 then d.operator ||| RDBQCNEGATE else d.operator
        let value2 := from_python value1
        let value3 := match value2 with
          | .list es => PyExpr.str (", ".intercalate (es.map pyUnicode))
          | v => v
        .ok (c.name, op, value3)
    else prepareLoop c rest

/-- `Condition.prepare`: search-ready triple (column name, operator code,
wire expression) or the exception the compiler raises. -/
def Condition.prepare (c : Condition) : Except PyExc (String × Nat × PyExpr) :=
  match LOOKUP_DEFINITIONS c.lookup with
  | Option.none => .error (.nameError
      ("Unknown lookup \"" ++ c.lookup ++ "\". Available are: " ++
        availableLookups))
  | some definitions => prepareLoop c definitions

/-! ## `TyrantProtocol.search` and lazy query evaluation
(claims C5, C6, C9, C10) -/

/-- Database type marker constants (`protocol.DB_TABLE` etc.). -/
def DB_TABLE : String := "table"

/-- `protocol.TABLE_COLUMN_SEP`. -/
def TABLE_COLUMN_SEP : String := "\u0000"

/-- `query.Ordering`: column name, direction (ASC 0 / DESC 1) and method
(ALPHABETIC 0 / NUMERIC 1). -/
structure QOrdering where
  name : Option String := Option.none
  direction : Nat := 0
  method : Nat := 0
  deriving Repr, DecidableEq

/-- `Ordering.__init__(name, direction, numeric)`; `direction or self.ASC`
maps a falsy direction to ASC. -/
def QOrdering.make (name : Option String) (direction : Nat) (numeric : Bool) :
    QOrdering :=
  ⟨name, if direction ≠ 0 then direction else 0, if numeric then 1 else 0⟩

/-- `Ordering.__nonzero__`: `bool(self.name)`. -/
def QOrdering.truthy (o : QOrdering) : Bool :=
  match o.name with
  | some s => !s.isEmpty
  | _ => false

/-- `Ordering.type`: `PROTOCOL_MAP[self.direction][self.method]`. -/
def QOrdering.type (o : QOrdering) : Nat :=
  if o.direction = 1 then (if o.method = 1 then RDBQONUMDESC else RDBQOSTRDESC)
  else (if o.method = 1 then RDBQONUMASC else RDBQOSTRASC)

/-- The observable content of a `Query` object: literal flag, database
type, conditions, ordering, optional column projection, metasearch type and
metasearch condition lists.  (Object identity and state sharing are treated
separately by the heap model for claim C7.) -/
structure QueryData where
  literal : Bool := false
  dbType : String := DB_TABLE
  conditions : List Condition := []
  ordering : QOrdering := {}
  columns : Option (List String) := Option.none
  msType : Option Nat := Option.none
  msConditions : Option (List (List Condition)) := Option.none
  deriving Repr, DecidableEq

/-- The parameters of one `TyrantProtocol.search` call (conditions already
prepared into (column, opcode, expression) triples). -/
structure SearchParams where
  conditions : List (String × Nat × PyExpr) := []
  limit : Option Int := some 10
  offset : Option Int := some 0
  orderType : Nat := 0
  orderColumn : Option String := Option.none
  opts : Nat := 0
  msConditions : Option (List (List (String × Nat × PyExpr))) := Option.none
  msType : Option Nat := Option.none
  columns : Option (List String) := Option.none
  out : Bool := false
  count : Bool := false
  hint : Bool := false
  deriving Repr, DecidableEq

/-- One `misc(func, args, opts)` network call: the only socket activity a
successful `search` performs. -/
structure MiscCall where
  func : String
  args : List String
  opts : Nat
  deriving Repr, DecidableEq

/-- Python truthiness of an optional integer (`None` and 0 are falsy). -/
def truthyInt : Option Int → Bool
  | some n => n != 0
  | _ => false

/-- `"%s"` of a value that is either an integer or `None`. -/
def fmtOptInt : Option Int → String
  | some n => toString n
  | _ => "None"

/-- `"addcond\x00%s\x00%d\x00%s" % cond`. -/
def condArg (c : String × Nat × PyExpr) : String :=
  "addcond\u0000" ++ c.1 ++ "\u0000" ++ toString c.2.1 ++ "\u0000" ++
    pyUnicode c.2.2

/-- The sanity assertions and the offset-without-limit guard of
`TyrantProtocol.search`, in source order: the first exception raised, if
any.  All of these fire before any network activity. -/
def searchGuards (p : SearchParams) : Option PyExc :=
  if !(match p.limit with | Option.none => true | some l => decide (0 ≤ l)) then
    some (.assertionError ("wrong limit value \"" ++ fmtOptInt p.limit ++ "\""))
  else if !(match p.offset with
      | Option.none => true
      | some o => decide (0 ≤ o)) then
    some (.assertionError ("wrong offset value \"" ++ fmtOptInt p.offset ++ "\""))
  else if truthyInt p.offset && !truthyInt p.limit then
    some (.valueError "Offset cannot be specified without limit.")
  else if !(match p.msType with
      | Option.none => true
      | some t => decide (t = TDBMSUNION ∨ t = TDBMSISECT ∨ t = TDBMSDIFF)) then
    some (.assertionError "ms_type not in (None, UNION, ISECT, DIFF)")
  else if !(decide (p.orderType = RDBQOSTRASC ∨ p.orderType = RDBQOSTRDESC ∨
      p.orderType = RDBQONUMASC ∨ p.orderType = RDBQONUMDESC)) then
    some (.assertionError "order_type not in RDBQO constants")
  else Option.none

/-- The metasearch block of the `search` argument list
(`mstype`, then per branch `next` followed by its `addcond` entries);
emitted only when `ms_type is not None and ms_conditions` is truthy. -/
def msArgs (p : SearchParams) : List String :=
  match p.msType, p.msConditions with
  | some t, some conds =>
    if conds.isEmpty then []
    else ("mstype\u0000" ++ toString t) ::
      (conds.map (fun cs => "next" :: cs.map condArg)).flatten
  | _, _ => []

/-- The column-projection block (`get`), emitted when `columns` is truthy. -/
def colArgs (p : SearchParams) : List String :=
  match p.columns with
  | some cs => if cs.isEmpty then []
      else ["get\u0000" ++ "\u0000".intercalate cs]
  | _ => []

/-- The ordering block (`setorder`), emitted when `order_column` is
truthy. -/
def orderArgs (p : SearchParams) : List String :=
  match p.orderColumn with
  | some c => if c.isEmpty then []
      else ["setorder\u0000" ++ c ++ "\u0000" ++ toString p.orderType]
  | _ => []

/-- `TyrantProtocol.search(...)` up to its network activity: the sanity
assertions, the offset-without-limit guard, and the assembly of the
argument list for `misc("search", args, opts)`.  An `.error` models an
exception raised before any bytes are written to or read from the socket;
the `.ok` value is the one network call the method then performs. -/
def searchCall (p : SearchParams) : Except PyExc MiscCall :=
  match searchGuards p with
  | some e => .error e
  | Option.none => do
    let limitArgs ←
      (if truthyInt p.limit then
        match p.limit, p.offset with
        | some l, some o =>
          pure ["setlimit\u0000" ++ toString l ++ "\u0000" ++ toString o]
        | _, _ =>
          -- `"%d" % None` raises TypeError; unreachable from the query layer
          throw (.typeError "int argument required")
      else pure ([] : List String))
    pure ⟨"search",
      p.conditions.map condArg ++ msArgs p ++ colArgs p ++ orderArgs p ++
        limitArgs ++ (if p.out then ["out"] else []) ++
        (if p.count then ["count"] else []) ++
        (if p.hint then ["hint"] else []),
      p.opts⟩

/-- `[c.prepare() for c in conditions]`: first exception wins. -/
def prepareAll : List Condition → Except PyExc (List (String × Nat × PyExpr))
  | [] => .ok []
  | c :: cs => do
    let p ← c.prepare
    let ps ← prepareAll cs
    pure (p :: ps)

/-- Prepared metasearch condition lists
(`[[c.prepare() for c in ms_c] for ms_c in self._ms_conditions]`). -/
def prepareAllLists :
    List (List Condition) → Except PyExc (List (List (String × Nat × PyExpr)))
  | [] => .ok []
  | cs :: rest => do
    let ps ← prepareAll cs
    let rests ← prepareAllLists rest
    pure (ps :: rests)

/-- `defaults.update(columns=...)` of `_do_search`: applied only when the
column list is truthy. -/
def applyColumns (q : QueryData) (p : SearchParams) : SearchParams :=
  match q.columns with
  | some cs => if cs.isEmpty then p else { p with columns := some cs }
  | _ => p

/-- `defaults.update(order_column=..., order_type=...)` of `_do_search`:
applied only when the ordering is truthy. -/
def applyOrdering (q : QueryData) (p : SearchParams) : SearchParams :=
  if q.ordering.truthy then
    { p with orderColumn := q.ordering.name, orderType := q.ordering.type }
  else p

/-- `defaults.update(ms_type=..., ms_conditions=...)` of `_do_search`:
applied only when the metasearch condition-list list is truthy; preparing
the metasearch conditions may raise. -/
def applyMeta (q : QueryData) (p : SearchParams) : Except PyExc SearchParams :=
  match q.msConditions with
  | some mcs =>
    if mcs.isEmpty then pure p
    else do
      let pmcs ← prepareAllLists mcs
      pure { p with msType := q.msType, msConditions := some pmcs }
  | _ => pure p

/-- `Query._do_search`: assembles the `SearchParams` from the query state
(`conditions or [c.prepare() ...]`, then the three conditional updates) and
performs the `search` call. -/
def doSearch (q : QueryData) (conditions : Option (List (String × Nat × PyExpr)))
    (limit offset : Option Int) (out count hint : Bool) :
    Except PyExc MiscCall := do
  let conds ←
    (match conditions with
     | some cs => if cs.isEmpty then prepareAll q.conditions else pure cs
     | Option.none => prepareAll q.conditions)
  let p ← applyMeta q (applyOrdering q (applyColumns q
    { conditions := conds, limit := limit, offset := offset,
      out := out, count := count, hint := hint }))
  searchCall p

/-- The slice-integrity checks of `Query.__getitem__` (lines 80-86):
the first exception raised, if any. -/
def sliceGuards (start stop : Option Int) : Option PyExc :=
  if (match start with | some a => decide (a < 0) | _ => false) ||
     (match stop with | some b => decide (b < 0) | _ => false) then
    some (.valueError "Negative indexing is not supported")
  else if truthyInt start && !truthyInt stop then
    some (.valueError "Offset without limit is not supported")
  else if truthyInt start && start == stop then
    some (.valueError "Zero-length slices are not supported")
  else Option.none

/-- The `(offset, limit)` computed for a slice that passed the guards:
`offset = k.start or 0`; `limit = k.stop - (k.start or 0) if k.start else
k.stop`.  (When `start` is truthy, `stop` cannot be `None` because the
guards fired earlier, so `getD 0` is never consulted.) -/
def sliceOffsetLimit (start stop : Option Int) : Int × Option Int :=
  let offset : Int := (start.getD 0)
  let limit : Option Int :=
    if truthyInt start then some (stop.getD 0 - offset) else stop
  (offset, limit)

/-- The slice branch of `Query.__getitem__` up to and including the
`search` network call: guards, offset/limit computation, condition
preparation, `_do_search`. -/
def getitemSlicePlan (q : QueryData) (start stop : Option Int) :
    Except PyExc MiscCall := do
  match sliceGuards start stop with
  | some e => throw e
  | Option.none =>
    let ol := sliceOffsetLimit start stop
    let prepped ← prepareAll q.conditions
    doSearch q (some prepped) ol.2 (some ol.1) false false false

/-- The scalar branch of `Query.__getitem__` up to and including the
`search` network call: negativity check, `offset = k, limit = 1`,
condition preparation, `_do_search`. -/
def getitemScalarPlan (q : QueryData) (i : Int) : Except PyExc MiscCall := do
  if i < 0 then throw (.valueError "Negative indexing is not supported")
  let prepped ← prepareAll q.conditions
  doSearch q (some prepped) (some 1) (some i) false false false

/-- `utils.to_python` result: a table record (column dictionary), Python
`None` (empty wire value), or the raw string for non-table databases. -/
inductive RecordValue where
  | table (pairs : List (String × String))
  | pyNone
  | raw (s : String)
  deriving Repr, DecidableEq

/-- Consecutive pairs `(elems[i], elems[i+1])` for `i = 0, 2, 4, ...`; an
odd-length list makes `elems[i+1]` an out-of-range access (IndexError),
exactly as the `dict(...)` generator of `utils.to_python` would raise. -/
def pairUp : List String → Except PyExc (List (String × String))
  | [] => .ok []
  | [_] => .error .indexError
  | a :: b :: rest => do
    let ps ← pairUp rest
    pure ((a, b) :: ps)

/-- `dict(pairs)`: later pairs overwrite earlier values; the first
insertion determines the position used here (iteration order of a Python 2
dict is hash-dependent and is not asserted by any theorem below). -/
def dictUpdate (d : List (String × String)) (kv : String × String) :
    List (String × String) :=
  if d.any (fun p => p.1 = kv.1) then
    d.map (fun p => if p.1 = kv.1 then (p.1, kv.2) else p)
  else d ++ [kv]

def dictFromPairs (ps : List (String × String)) : List (String × String) :=
  ps.foldl dictUpdate []

/-- `utils.to_python(elem, dbtype)` with `sep = None` (as called from the
query layer): table records are split on NUL into a column dictionary, an
empty leading element means `None`, other database types return the value
unchanged. -/
def to_python (elem : String) (dbType : String) : Except PyExc RecordValue :=
  if dbType = DB_TABLE then
    match elem.splitOn TABLE_COLUMN_SEP with
    | [] => .ok .pyNone
    | first :: rest =>
      if first.isEmpty then .ok .pyNone
      else do
        let ps ← pairUp (first :: rest)
        pure (.table (dictFromPairs ps))
  else .ok (.raw elem)

/-- The value `Query.__getitem__` produces for a scalar index: in column
mode just the converted value, otherwise the `(key, converted value)`
pair. -/
inductive ItemResult where
  | record (value : RecordValue)
  | pair (key : String) (value : RecordValue)
  deriving Repr, DecidableEq

/-- The full scalar branch of `Query.__getitem__`: after the search
returns `serverKeys`, the unguarded `keys[0]` access happens in both the
column and the non-column branch; `getOracle` supplies the `get(k)`
response for the key. -/
def getitemScalar (q : QueryData) (i : Int) (serverKeys : List String)
    (getOracle : String → String) : Except PyExc ItemResult := do
  let _ ← getitemScalarPlan q i
  match serverKeys with
  | [] => throw .indexError
  | k :: _ =>
    if (match q.columns with | some cs => !cs.isEmpty | _ => false) then do
      let rv ← to_python k q.dbType
      pure (.record rv)
    else do
      let rv ← to_python (getOracle k) q.dbType
      pure (.pair k rv)

/-- Number of `search` network calls issued by evaluating one slice. -/
def sliceSearchCalls (q : QueryData) (start stop : Option Int) : Nat :=
  match getitemSlicePlan q start stop with
  | .ok _ => 1
  | .error _ => 0

/-- Number of `search` network calls issued by a sequence of slice
evaluations on the same `Query` instance.  `__getitem__` reads no instance
state written by earlier evaluations — the result cache of the source
(`self._cache`, lines 47 and 98-100 and 128 of `query.py`) is commented
out — so consecutive evaluations compose by summation. -/
def evalSearchCalls (q : QueryData) (slices : List (Option Int × Option Int)) :
    Nat :=
  (slices.map (fun s => sliceSearchCalls q s.1 s.2)).sum

/-- Kernel-friendly `startswith`. -/
def strStartsWith (s pre : String) : Bool :=
  pre.toList.isPrefixOf s.toList

/-! ## Heap model of `Query` objects (claim C7)

Claim C7 is about object identity: which mutable Python objects the query
methods create, mutate and share.  Mutable objects — Python lists,
`Condition` instances (whose `negate` attribute is assigned after
cloning), and condition-expression values — live in an explicit heap; a
`QueryObj` holds references (heap indices).  Allocation appends a cell;
mutation overwrites a cell in place, so an aliased reference would observe
it.  `Query._clone` copies the conditions list, clones each `Condition`
with `copy.copy` (which *keeps* the `expr` reference), copies the
metasearch lists and the columns list, and resets the ordering to the
default (`Query.__init__` always assigns a fresh `Ordering()`);
`Ordering` instances are never mutated and are modelled as plain values. -/

inductive Cell where
  | clist (elems : List Nat)
  | ccond (name lookup : String) (expr : Nat) (negate : Bool)
  | cexpr (v : PyExpr)
  | cstrs (elems : List String)
  deriving Repr, DecidableEq

abbrev Heap := List Cell

/-- Allocation: append a cell, return its reference. -/
def halloc (h : Heap) (c : Cell) : Heap × Nat := (h ++ [c], h.length)

/-- In-place mutation of the cell at `r`. -/
def hset (h : Heap) (r : Nat) (c : Cell) : Heap := h.set r c

def getCList (h : Heap) (r : Nat) : Option (List Nat) :=
  match h[r]? with
  | some (.clist es) => some es
  | _ => Option.none

def getStrs (h : Heap) (r : Nat) : Option (List String) :=
  match h[r]? with
  | some (.cstrs es) => some es
  | _ => Option.none

/-- A `Query` object: references into the heap plus immutable-by-use
fields.  `conditions` refers to a `clist` of `ccond` references;
`msConds`, when present, refers to a `clist` of references to `clist`s of
`ccond` references; `columns`, when present, refers to a `cstrs`. -/
structure QueryObj where
  literal : Bool := false
  conditions : Nat := 0
  ordering : QOrdering := {}
  columns : Option Nat := Option.none
  msType : Option Nat := Option.none
  msConds : Option Nat := Option.none
  deriving Repr, DecidableEq

/-- `Condition._clone` = `copy.copy(self)`: a fresh `Condition` object
whose fields — including the `expr` *reference* — are copied verbatim.
(The fallback branch is unreachable on well-formed heaps.) -/
def cloneCond (h : Heap) (r : Nat) : Heap × Nat :=
  match h[r]? with
  | some (.ccond n l e g) => halloc h (.ccond n l e g)
  | _ => halloc h (.ccond "" "" 0 false)

def cloneConds (h : Heap) : List Nat → Heap × List Nat
  | [] => (h, [])
  | r :: rest =>
    let s1 := cloneCond h r
    let s2 := cloneConds s1.1 rest
    (s2.1, s1.2 :: s2.2)

/-- Clone of the inner metasearch lists:
`[[c._clone() for c in conds] for conds in self._ms_conditions]`. -/
def cloneMsLists (h : Heap) : List Nat → Heap × List Nat
  | [] => (h, [])
  | r :: rest =>
    let inner := (getCList h r).getD []
    let s1 := cloneConds h inner
    let s2 := halloc s1.1 (.clist s1.2)
    let s3 := cloneMsLists s2.1 rest
    (s3.1, s2.2 :: s3.2)

/-- First stage of `Query._clone()`: fresh conditions list holding a
`copy.copy` of each condition. -/
def cloneCondStep (h : Heap) (q : QueryObj) : Heap × Nat :=
  let s1 := cloneConds h ((getCList h q.conditions).getD [])
  halloc s1.1 (.clist s1.2)

/-- Metasearch stage of `Query._clone()`: when `self._ms_conditions` is
truthy (present and nonempty), deep-copy it (fresh outer list, fresh inner
lists, cloned conditions); otherwise the copy gets `None`. -/
def cloneMsStep (h : Heap) (q : QueryObj) : Heap × Option Nat :=
  match q.msConds with
  | some r =>
    match getCList h r with
    | some (o :: os) =>
      let t1 := cloneMsLists h (o :: os)
      let t2 := halloc t1.1 (.clist t1.2)
      (t2.1, some t2.2)
    | _ => (h, Option.none)
  | _ => (h, Option.none)

/-- Columns stage of `Query._clone()`: `self._columns[:]` when truthy. -/
def cloneColsStep (h : Heap) (q : QueryObj) : Heap × Option Nat :=
  match q.columns with
  | some r =>
    match getStrs h r with
    | some (c :: cs) =>
      let t := halloc h (.cstrs (c :: cs))
      (t.1, some t.2)
    | _ => (h, Option.none)
  | _ => (h, Option.none)

/-- `Query._clone()` followed by `Query.__init__` on the copied values:
fresh conditions list of cloned conditions; metasearch lists deep-copied
(conditions cloned, lists fresh) when truthy, dropped when falsy; columns
list copied (`self._columns[:]`) when truthy; ordering reset to the
default `Ordering()`. -/
def cloneQuery (h : Heap) (q : QueryObj) : Heap × QueryObj :=
  let s2 := cloneCondStep h q
  let ms := cloneMsStep s2.1 q
  let cols := cloneColsStep ms.1 q
  (cols.1,
    { literal := q.literal, conditions := s2.2, ordering := {},
      columns := cols.2, msType := q.msType, msConds := ms.2 })

/-- `query._conditions.append(c)`: in-place append on the list object. -/
def appendToList (h : Heap) (listRef elemRef : Nat) : Heap :=
  match h[listRef]? with
  | some (.clist es) => hset h listRef (.clist (es ++ [elemRef]))
  | _ => h

/-- The positional-argument loop of `Query._filter`: clone each passed
`Condition`, assign `c.negate = c.negate ^ negate` on the fresh copy, and
append it to the clone's conditions list. -/
def filterArgsLoop (h : Heap) (condsRef : Nat) (neg : Bool) :
    List Nat → Heap
  | [] => h
  | a :: rest =>
    let s1 := cloneCond h a
    let h2 :=
      match s1.1[s1.2]? with
      | some (.ccond n l e g) => hset s1.1 s1.2 (.ccond n l e (xor g neg))
      | _ => s1.1
    filterArgsLoop (appendToList h2 condsRef s1.2) condsRef neg rest

/-- The keyword-argument loop of `Query._filter`: build a new `Condition`
(fresh expression object, fresh condition object) and append it. -/
def filterKwargsLoop (h : Heap) (condsRef : Nat) (neg : Bool) :
    List (String × PyExpr) → Heap
  | [] => h
  | (nm, e) :: rest =>
    let a1 := halloc h (.cexpr e)
    let p := parseLookup nm
    let a2 := halloc a1.1 (.ccond p.1 p.2 a1.2 neg)
    filterKwargsLoop (appendToList a2.1 condsRef a2.2) condsRef neg rest

/-- `Query._filter(negate, args, kwargs)` (the engine behind `filter` with
`negate = false` and `exclude` with `negate = true`). -/
def pyFilter (h : Heap) (q : QueryObj) (neg : Bool) (args : List Nat)
    (kwargs : List (String × PyExpr)) : Heap × QueryObj :=
  let c0 := cloneQuery h q
  let h1 := filterArgsLoop c0.1 c0.2.conditions neg args
  let h2 := filterKwargsLoop h1 c0.2.conditions neg kwargs
  (h2, c0.2)

/-- `Query.order_by(name, numeric)`: clone, parse the `-` prefix, install
a fresh `Ordering`. -/
def pyOrderBy (h : Heap) (q : QueryObj) (name : String) (numeric : Bool) :
    Heap × QueryObj :=
  let c0 := cloneQuery h q
  let nd : String × Nat :=
    if strStartsWith name "-" then (name.drop 1, 1) else (name, 0)
  (c0.1, { c0.2 with ordering := QOrdering.make (some nd.1) nd.2 numeric })

/-- The `for name in names` loop of `Query.columns`: the source tests
`isinstance(names, ...)` — the whole tuple, always true — so every
iteration extends the fresh list by *all* names. -/
def columnsLoop (h : Heap) (r : Nat) (names : List String) :
    List String → Heap
  | [] => h
  | _ :: rest =>
    let h2 :=
      match h[r]? with
      | some (.cstrs es) => hset h r (.cstrs (es ++ names))
      | _ => h
    columnsLoop h2 r names rest

/-- `Query.columns(*names)`: clone, reset the projection, then (when names
were given) allocate a fresh list and run the extend loop. -/
def pyColumns (h : Heap) (q : QueryObj) (names : List String) :
    Heap × QueryObj :=
  let c0 := cloneQuery h q
  match names with
  | [] => (c0.1, { c0.2 with columns := Option.none })
  | _ =>
    let a := halloc c0.1 (.cstrs [])
    (columnsLoop a.1 a.2 names names, { c0.2 with columns := some a.2 })

/-- The `if not self._ms_conditions: ... = []` materialisation step of
`_add_to_metasearch`: reuse the (truthy) existing list, else install a
fresh empty one. -/
def msMaterialize (h : Heap) (q : QueryObj) : Heap × Nat :=
  match q.msConds with
  | some r =>
    match getCList h r with
    | some (_ :: _) => (h, r)
    | _ => halloc h (.clist [])
  | _ => halloc h (.clist [])

/-- `Query._add_to_metasearch(other, method)` (behind `union`,
`intersect` and `minus`): clone self, check the metasearch-type mixing
assertion, materialise the metasearch list if falsy, clone `other` and
append the *reference to the clone's conditions list* as a new branch. -/
def pyAddToMetasearch (h : Heap) (q other : QueryObj) (mtd : Nat) :
    Except PyExc (Heap × QueryObj) :=
  let c0 := cloneQuery h q
  if !(c0.2.msType == Option.none || c0.2.msType == some mtd) then
    .error (.assertionError "You can not mix union with intersect or minus")
  else
    let ms := msMaterialize c0.1 c0.2
    let oc := cloneQuery ms.1 other
    .ok (appendToList oc.1 ms.2 oc.2.conditions,
      { c0.2 with msConds := some ms.2, msType := some mtd })

/-- The observable content of one condition: the dereferenced fields. -/
structure CondObs where
  name : String
  lookup : String
  expr : PyExpr
  negate : Bool
  deriving Repr, DecidableEq

/-- The observable state of a query named by claim C7: conditions (with
negate flags and expression values), ordering, column projection,
metasearch type and metasearch condition lists.  `Option.none` answers
mean a dangling or ill-typed reference (never the case on well-formed
heaps). -/
structure QueryObs where
  literal : Bool
  conditions : List CondObs
  ordering : QOrdering
  columns : Option (List String)
  msType : Option Nat
  msConds : Option (List (List CondObs))
  deriving Repr, DecidableEq

def obsCond (h : Heap) (r : Nat) : Option CondObs :=
  match h[r]? with
  | some (.ccond n l e g) =>
    match h[e]? with
    | some (.cexpr v) => some ⟨n, l, v, g⟩
    | _ => Option.none
  | _ => Option.none

def obsConds (h : Heap) : List Nat → Option (List CondObs)
  | [] => some []
  | r :: rest =>
    match obsCond h r, obsConds h rest with
    | some c, some cs => some (c :: cs)
    | _, _ => Option.none

def obsMsLists (h : Heap) : List Nat → Option (List (List CondObs))
  | [] => some []
  | r :: rest =>
    match getCList h r with
    | some inner =>
      match obsConds h inner, obsMsLists h rest with
      | some cs, some rests => some (cs :: rests)
      | _, _ => Option.none
    | _ => Option.none

/-- The observable-column projection: `Option.none` on a dangling
reference, `some` of the optional column list otherwise. -/
def obsColumns (h : Heap) (q : QueryObj) : Option (Option (List String)) :=
  match q.columns with
  | some r =>
    match getStrs h r with
    | some ss => some (some ss)
    | _ => Option.none
  | _ => some Option.none

/-- The observable metasearch condition lists. -/
def obsMs (h : Heap) (q : QueryObj) : Option (Option (List (List CondObs))) :=
  match q.msConds with
  | some r =>
    match getCList h r with
    | some orefs =>
      match obsMsLists h orefs with
      | some inner => some (some inner)
      | _ => Option.none
    | _ => Option.none
  | _ => some Option.none

def obsQuery (h : Heap) (q : QueryObj) : Option QueryObs :=
  match getCList h q.conditions with
  | some condRefs =>
    match obsConds h condRefs, obsColumns h q, obsMs h q with
    | some conds, some cols, some ms =>
      some ⟨q.literal, conds, q.ordering, cols, q.msType, ms⟩
    | _, _, _ => Option.none
  | _ => Option.none

/-- The condition references held (directly) by a query. -/
def condRefsOf (h : Heap) (q : QueryObj) : List Nat :=
  (getCList h q.conditions).getD []

/-- The references of the inner metasearch lists. -/
def msOuterRefs (h : Heap) (q : QueryObj) : List Nat :=
  match q.msConds with
  | some r => (getCList h r).getD []
  | _ => []

/-- Condition references inside the metasearch branches. -/
def msCondRefs (h : Heap) (q : QueryObj) : List Nat :=
  ((msOuterRefs h q).map (fun r => (getCList h r).getD [])).flatten

/-- All structural references of a query: its list objects, condition
objects and column-list object (everything except expression objects). -/
def structRefsOf (h : Heap) (q : QueryObj) : List Nat :=
  q.conditions :: (condRefsOf h q ++
    (match q.columns with | some r => [r] | _ => []) ++
    (match q.msConds with | some r => [r] | _ => []) ++
    msOuterRefs h q ++ msCondRefs h q)

/-- The `expr` reference held by a condition object. -/
def condExprRef (h : Heap) (r : Nat) : Option Nat :=
  match h[r]? with
  | some (Cell.ccond _ _ e _) => some e
  | _ => Option.none

/-- The expression references of a query: one per reachable condition. -/
def exprRefsOf (h : Heap) (q : QueryObj) : List Nat :=
  (condRefsOf h q ++ msCondRefs h q).filterMap (condExprRef h)

/-- Every reference reachable from a query. -/
def refsOf (h : Heap) (q : QueryObj) : List Nat :=
  structRefsOf h q ++ exprRefsOf h q

/-- Mutable Python objects: lists, `Condition` instances, list-valued
expressions.  Numbers, strings and `None` are immutable. -/
def isMutableCell (h : Heap) (r : Nat) : Bool :=
  match h[r]? with
  | some (.clist _) => true
  | some (.ccond _ _ _ _) => true
  | some (.cstrs _) => true
  | some (.cexpr (.list _)) => true
  | _ => false

/-- The mutable state shared between two queries: references reachable
from both that denote mutable objects. -/
def sharedMutableRefs (h : Heap) (q q2 : QueryObj) : List Nat :=
  (refsOf h q).filter (fun r => decide (r ∈ refsOf h q2) && isMutableCell h r)

/-- The command word of one `misc("search")` argument: the text before the
first NUL separator (the whole string when it has no NUL). -/
def argCmd (s : String) : String :=
  String.mk (s.data.takeWhile (fun c => c != Char.ofNat 0))

/-! ## C8: `Query.values` and CPython 2 dict key order

`values(key)` collects the distinct values into a plain `dict`
(`collected[v] = 1` guarded by `v not in collected`) and returns
`collected.keys()`.  In CPython 2 a small dict is an 8-slot open-addressing
hash table and `keys()` lists the occupied slots in slot order, not in
insertion order.  The embedding below models the CPython 2.7 narrow
behaviour exactly for string keys while the table stays below the resize
threshold (at most 5 entries — `values` results in the theorems and the
counterexample stay below it): the string hash
(`x = ord(s[0]) << 7; for c in s: x = (x * 1000003) XOR ord(c);
x ^= len(s); if x == -1: x = -2` on unsigned 64-bit words), the probe
sequence (`i = i*5 + perturb + 1; perturb >>= 5`, slot `i mod 8`), and
slot-order `keys()`.  The probe loop carries fuel and the functions return
`Option`, with `Option.none` for states the loop cannot reach. -/

/-- CPython 2.7 string hash, as an unsigned 64-bit word. -/
def pyHash (s : String) : Nat :=
  match s.data with
  | [] => 0
  | c :: _ =>
    let h0 := (c.toNat <<< 7) % (2 ^ 64)
    let h := s.data.foldl
      (fun h c2 => ((h * 1000003) % (2 ^ 64)) ^^^ c2.toNat) h0
    let h2 := h ^^^ (s.length % (2 ^ 64))
    if h2 == 2 ^ 64 - 1 then 2 ^ 64 - 2 else h2

/-- The CPython 2 `lookdict_string` probe on an 8-slot table: stop at the
first empty or matching slot.  Arithmetic is exact rather than modulo
2^64; only residues modulo 8 are consumed, and 2^64 is a multiple of 8,
so the visited slots agree with the C code. -/
def probeLoop (table : List (Option String)) (v : String) :
    Nat → Nat → Nat → Option Nat
  | 0, _, _ => Option.none
  | fuel + 1, i, p =>
    match table[i % 8]? with
    | some Option.none => some (i % 8)
    | some (some w) =>
      if w == v then some (i % 8)
      else probeLoop table v fuel (i * 5 + p + 1) (p / 32)
    | _ => Option.none

def dictProbe (table : List (Option String)) (v : String) : Option Nat :=
  probeLoop table v 64 (pyHash v) (pyHash v)

/-- `if v not in collected: collected[v] = 1`: both the membership test
and the store probe the same unmutated table, so they are one probe —
insert at an empty final slot, no-op at a matching one. -/
def dictInsertNew (table : List (Option String)) (v : String) :
    Option (List (Option String)) :=
  match dictProbe table v with
  | some i =>
    match table[i]? with
    | some Option.none => some (table.set i (some v))
    | some (some _) => some table
    | _ => Option.none
  | _ => Option.none

/-- `collected.keys()`: occupied slots in slot order. -/
def dictKeys (table : List (Option String)) : List String :=
  table.filterMap id

/-- The `for k, v in data.iteritems()` body of `Query.values`: record
dicts have unique keys, so iterating the association list is
order-independent for the single `k == key` hit. -/
def valuesStep (key : String) (table : List (Option String)) :
    List (String × String) → Option (List (Option String))
  | [] => some table
  | (k, v) :: rest =>
    if k == key then
      match dictInsertNew table v with
      | some t2 => valuesStep key t2 rest
      | _ => Option.none
    else valuesStep key table rest

/-- The `for _, data in self[:]` loop of `Query.values`. -/
def valuesLoop (key : String) (table : List (Option String)) :
    List (List (String × String)) → Option (List (Option String))
  | [] => some table
  | r :: rest =>
    match valuesStep key table r with
    | some t2 => valuesLoop key t2 rest
    | _ => Option.none

def emptyTable : List (Option String) := List.replicate 8 Option.none

/-- `Query.values(key)` on the materialised records of `self[:]`. -/
def pyValues (key : String) (records : List (List (String × String))) :
    Option (List String) :=
  match valuesLoop key emptyTable records with
  | some t => some (dictKeys t)
  | _ => Option.none

/-- The behaviour the spec sentence describes (first-seen order), for
comparison with `pyValues`. -/
def firstSeenStep (key : String) (acc : List String) :
    List (String × String) → List String
  | [] => acc
  | (k, v) :: rest =>
    if k == key && !(acc.contains v) then
      firstSeenStep key (acc ++ [v]) rest
    else firstSeenStep key acc rest

def firstSeenValues (key : String)
    (records : List (List (String × String))) : List String :=
  records.foldl (firstSeenStep key) []

/-- The hash-table invariant tying the `collected` dict to the list of
values inserted so far: 8 slots, slot contents = inserted values, each
value in one slot only, and probing for a stored value finds its slot. -/
def TInv (table : List (Option String)) (acc : List String) : Prop :=
  table.length = 8 ∧
    (∀ v : String, v ∈ acc ↔ ∃ i : Nat, table[i]? = some (some v)) ∧
    (∀ (v : String) (i j : Nat), table[i]? = some (some v) →
      table[j]? = some (some v) → i = j) ∧
    (∀ (v : String) (i : Nat), table[i]? = some (some v) →
      dictProbe table v = some i)

/-- A concrete three-cell heap: a mutable list-valued expression object, a
condition holding a reference to it, and a conditions list holding the
condition. -/
def exampleHeap : Heap :=
  [Cell.cexpr (.list [.int 58, .int 120]),
   Cell.ccond "stock" "between" 0 false,
   Cell.clist [1]]

/-- A query over `exampleHeap` with one condition and no metasearch. -/
def exampleQuery : QueryObj := { conditions := 2 }

/-- The observable state of `exampleQuery` on `exampleHeap`. -/
def exampleObs : QueryObs :=
  { literal := false,
    conditions := [{ name := "stock", lookup := "between",
                     expr := .list [.int 58, .int 120], negate := false }],
    ordering := {}, columns := Option.none,
    msType := Option.none, msConds := Option.none }

/-- Heap evolution bound: `h2` preserves every read below `n` of `h`. -/
def PB (n : Nat) (h h2 : Heap) : Prop :=
  n ≤ h2.length ∧ ∀ r, r < n → h2[r]? = h[r]?

/-- Freshness of all structural references of a query relative to an old
heap bound `n`. -/
def StructFresh (n : Nat) (h2 : Heap) (q2 : QueryObj) : Prop :=
  n ≤ q2.conditions ∧
    (∀ e ∈ condRefsOf h2 q2, n ≤ e) ∧
    (∀ cr, q2.columns = some cr → n ≤ cr) ∧
    (∀ mr, q2.msConds = some mr → n ≤ mr) ∧
    (∀ o2 ∈ msOuterRefs h2 q2, n ≤ o2) ∧
    (∀ e ∈ msCondRefs h2 q2, n ≤ e)

/-!
# Theorems

Supporting lemmas first, then for each claim its theorem (and, where the
claim fails on the code, the counterexample and the amended theorem).
-/

lemma packFold_eq (args : List PyArg) :
    packFold args =
      (args.filterMap (fun a => match a with
        | .int n => some (u32Bytes n)
        | .long n => some (u64Bytes n)
        | _ => none),
       (args.filterMap (fun a => match a with
        | .bstr bs => some bs
        | .ustr cs => some (utf8Encode cs)
        | .list es => some (listPayload es)
        | _ => none)).flatten) := by
  induction args with
  | nil => rfl
  | cons a rest ih =>
    cases a <;> simp [packFold, ih, List.filterMap_cons]

lemma pyTrunc_eq_floor (q : Rat) (h : 0 ≤ q) : pyTrunc q = ⌊q⌋ := by
  rw [pyTrunc, Rat.floor_def]
  exact Int.tdiv_eq_ediv (Rat.num_nonneg.mpr h) (Int.ofNat_nonneg q.den)

lemma pyTrunc_intCast (z : Int) : pyTrunc ((z : Rat)) = z := by
  simp [pyTrunc, Rat.num_intCast, Rat.den_intCast, Int.tdiv_one]

lemma pyTrunc_eval (a : Rat) (z : Int) (h0 : 0 ≤ a) (h : ⌊a⌋ = z) :
    pyTrunc a = z := by
  rw [pyTrunc_eq_floor _ h0, h]

/-! ### Claim C1 -/

/-- C1 (counterexample): the packed buffer for a `long` argument is *not*
the claimed layout with one 32-bit field per integer argument; `_pack`
emits an 8-byte field (`adddouble` actually sends such `long` arguments). -/
theorem c1_counterexample :
    pack 0x61 [PyArg.long 5] ≠ packClaimed 0x61 [PyArg.long 5] := by decide

/-- C1 (amended): the packed request buffer is the magic byte 0xC8, the
opcode byte, one big-endian field per numeric argument in argument order —
32 bits for an `int` argument, 64 bits for a `long` argument — then the raw
bytes of every string argument concatenated in argument order, each
list/tuple argument flattened in place as (4-byte big-endian length, raw
bytes) pairs, one pair per element. -/
theorem c1_pack_layout (code : Nat) (args : List PyArg) :
    pack code args = packAmended code args := by
  simp [pack, packAmended, packFold_eq]

/-! ### Claim C2 -/

/-- C2: a synchronous send reads exactly one status byte (an asynchronous
one reads none); status 0 returns normally; a nonzero status in the error
mapping (0 Success, 1 InvalidOperation, 2 HostNotFound, 3 ConnectionRefused,
4 SendError, 5 ReceiveError, 6 RecordExists, 7 RecordNotFound,
9999 MiscellaneousError) raises that `TyrantError` kind; a status byte
outside the mapping raises a `ValueError`-class error which is not a
`TyrantError` (ProtocolError) kind. -/
theorem c2_send_status_handling :
    (∀ code args status, (send code args true status).1.bytesRead = 1 ∧
        (send code args true status).1.written = pack code args) ∧
    (∀ code args status, (send code args false status).1.bytesRead = 0) ∧
    (∀ code args, (send code args true 0).2 = .ok ()) ∧
    get_for_code 0 = .ok .success ∧
    get_for_code 1 = .ok .invalidOperation ∧
    get_for_code 2 = .ok .hostNotFound ∧
    get_for_code 3 = .ok .connectionRefused ∧
    get_for_code 4 = .ok .sendError ∧
    get_for_code 5 = .ok .receiveError ∧
    get_for_code 6 = .ok .recordExists ∧
    get_for_code 7 = .ok .recordNotFound ∧
    get_for_code 9999 = .ok .miscellaneousError ∧
    (∀ code args (status : Nat) k, status ≠ 0 → get_for_code (status : Int) = .ok k →
        (send code args true status).2 = .error (.tyrantError k)) ∧
    (∀ code args (status : Nat), status ≠ 0 →
        (∀ p ∈ ERROR_CODE_TO_CLASS, p.1 ≠ (status : Int)) →
        (send code args true status).2 =
          .error (.valueError
            ("Unknown error code \"" ++ toString (status : Int) ++ "\""))) ∧
    (∀ msg, (PyExc.valueError msg).isTyrantError = false) := by
  refine ⟨fun _ _ _ => ⟨rfl, rfl⟩, fun _ _ _ => rfl, fun _ _ => rfl,
    rfl, rfl, rfl, rfl, rfl, rfl, rfl, rfl, rfl, ?_, ?_, fun _ => rfl⟩
  · intro code args status k hs hk
    simp [send, sendOutcome, hs, hk]
  · intro code args status hs hnone
    have hfind : ERROR_CODE_TO_CLASS.find? (fun p => p.1 == (status : Int)) = none := by
      rw [List.find?_eq_none]
      intro p hp
      simpa using hnone p hp
    simp [send, sendOutcome, hs, get_for_code, hfind]

/-- C2 (witness): applying the theorem at opcode 0x30, no arguments and the
unmapped status byte 8. -/
theorem c2_witness :
    (send 0x30 [] true 8).2 =
      .error (.valueError ("Unknown error code \"" ++ toString ((8 : Nat) : Int) ++ "\"")) :=
  c2_send_status_handling.2.2.2.2.2.2.2.2.2.2.2.2.2.1 0x30 [] 8 (by decide) (by decide)

/-! ### Claim C3 -/

/-- C3 (counterexample): at `num = 2 ^ (-13) = 0.0001220703125` (exactly
representable as a float, with `num * 1e12 = 122070312.5` also exact in
binary64), the code truncates the fractional field to 122070312 whereas the
claimed `round` gives 122070313. -/
theorem c3_counterexample :
    adddoubleFields (1 / 8192) ≠ adddoubleFieldsClaimed (1 / 8192) := by
  have e0 : pyTrunc (1 / 8192 : Rat) = 0 :=
    pyTrunc_eval _ _ (by norm_num) (by norm_num)
  have e1 : adddoubleFields (1 / 8192) = (0, 122070312) := by
    simp only [adddoubleFields, modf, e0]
    rw [pyTrunc_eval ((1 / 8192 - ((0 : Int) : Rat)) * 10 ^ 12) 122070312
      (by norm_num) (by norm_num)]
    norm_num [pyTrunc]
  have e2 : adddoubleFieldsClaimed (1 / 8192) = (0, 122070313) := by
    simp only [adddoubleFieldsClaimed, pyRound, e0]
    norm_num
  rw [e1, e2]
  decide

/-- C3 (amended): `adddouble` encodes `num` as integer field
`int(num)` (truncation toward zero) and fractional field
`int(fractional_component * 1e12)` — truncation, not `round` —, and
`get_double` decodes `(intpart, fracpart)` as `intpart + fracpart * 1e-12`;
consequently for nonnegative `num` the decoded value underestimates `num`
by less than `1e-12`. -/
theorem c3_adddouble_encoding :
    (∀ num : Rat, adddoubleFields num =
        (pyTrunc num, pyTrunc ((num - (pyTrunc num : Rat)) * 10 ^ 12))) ∧
    (∀ i f : Nat, getDouble i f = (i : Rat) + (f : Rat) * (1 / 10 ^ 12)) ∧
    (∀ num : Rat, 0 ≤ num →
        0 ≤ num - decodeFields (adddoubleFields num).1 (adddoubleFields num).2 ∧
        num - decodeFields (adddoubleFields num).1 (adddoubleFields num).2
          < 1 / 10 ^ 12) := by
  refine ⟨?_, fun _ _ => rfl, ?_⟩
  · intro num
    simp only [adddoubleFields, modf, pyTrunc_intCast]
  · intro num h
    have hK : (0 : Rat) < 10 ^ 12 := by norm_num
    have ht : pyTrunc num = ⌊num⌋ := pyTrunc_eq_floor _ h
    have hy0 : 0 ≤ (num - ((⌊num⌋ : Int) : Rat)) * 10 ^ 12 :=
      mul_nonneg (sub_nonneg.mpr (Int.floor_le num)) (le_of_lt hK)
    have hfields : adddoubleFields num =
        (⌊num⌋, ⌊(num - ((⌊num⌋ : Int) : Rat)) * 10 ^ 12⌋) := by
      simp only [adddoubleFields, modf, pyTrunc_intCast, ht]
      rw [pyTrunc_eq_floor _ hy0]
    rw [hfields]
    set y : Rat := (num - ((⌊num⌋ : Int) : Rat)) * 10 ^ 12 with hy
    have h1 : ((⌊y⌋ : Int) : Rat) ≤ y := Int.floor_le y
    have h2 : y < ((⌊y⌋ : Int) : Rat) + 1 := Int.lt_floor_add_one y
    have hd : decodeFields ⌊num⌋ ⌊y⌋ =
        ((⌊num⌋ : Int) : Rat) + ((⌊y⌋ : Int) : Rat) * (1 / 10 ^ 12) := rfl
    rw [hd]
    constructor
    · have hA : ((⌊y⌋ : Int) : Rat) / 10 ^ 12 ≤ num - ((⌊num⌋ : Int) : Rat) := by
        rw [div_le_iff₀ hK]
        calc ((⌊y⌋ : Int) : Rat) ≤ y := h1
        _ = (num - ((⌊num⌋ : Int) : Rat)) * 10 ^ 12 := hy
      have : ((⌊y⌋ : Int) : Rat) * (1 / 10 ^ 12) = ((⌊y⌋ : Int) : Rat) / 10 ^ 12 := by
        ring
      rw [this]
      linarith
    · have hB : num - ((⌊num⌋ : Int) : Rat) < (((⌊y⌋ : Int) : Rat) + 1) / 10 ^ 12 := by
        rw [lt_div_iff₀ hK]
        calc (num - ((⌊num⌋ : Int) : Rat)) * 10 ^ 12 = y := hy.symm
        _ < ((⌊y⌋ : Int) : Rat) + 1 := h2
      have : ((⌊y⌋ : Int) : Rat) * (1 / 10 ^ 12) = ((⌊y⌋ : Int) : Rat) / 10 ^ 12 := by
        ring
      rw [this]
      have hsplit : (((⌊y⌋ : Int) : Rat) + 1) / 10 ^ 12 =
          ((⌊y⌋ : Int) : Rat) / 10 ^ 12 + 1 / 10 ^ 12 := by ring
      linarith [hB, hsplit]

/-- C3 (witness): the round-trip bound applied at the concrete input 3/2. -/
theorem c3_witness :
    0 ≤ (3 / 2 : Rat) ∧
      (0 ≤ (3 / 2 : Rat) -
          decodeFields (adddoubleFields (3 / 2)).1 (adddoubleFields (3 / 2)).2 ∧
        (3 / 2 : Rat) -
            decodeFields (adddoubleFields (3 / 2)).1 (adddoubleFields (3 / 2)).2
          < 1 / 10 ^ 12) :=
  ⟨by norm_num, c3_adddouble_encoding.2.2 (3 / 2) (by norm_num)⟩

/-! ### Claim C4 -/

/-- C4: compiling the lookup `between` on column `stock` with `[58, 120]`
yields opcode RDBQCNUMBT and wire expression `"58, 120"`; compiling
`between` with `[1]` raises a ValueError for the exactly-2-elements arity
constraint; compiling `contains` with `["a", "b"]` selects the iterable
AND-of-tokens definition RDBQCSTRAND, not the scalar substring definition
RDBQCSTRINC. -/
theorem c4_condition_compiler :
    Condition.prepare (Condition.make "stock__between" (.list [.int 58, .int 120])) =
        .ok ("stock", RDBQCNUMBT, .str "58, 120") ∧
      Condition.prepare (Condition.make "stock__between" (.list [.int 1])) =
        .error (.valueError
          "Bad lookup stock__between=[1]: expected at least 2 arguments") ∧
      Condition.prepare (Condition.make "name__contains"
          (.list [.str "a", .str "b"])) =
        .ok ("name", RDBQCSTRAND, .str "a, b") ∧
      RDBQCSTRAND ≠ RDBQCSTRINC := by
  refine ⟨by decide, by decide, by decide, by decide⟩

/-! ### Claim C5 -/

/-- C5 (counterexample): at offset -1 (non-zero) with absent limit the code
raises an AssertionError from `assert 0 <= offset`, which is not a
ValueError-class error, so "a ValueError-class error is raised" fails for
this non-zero offset. -/
theorem c5_counterexample :
    searchCall { offset := some (-1), limit := Option.none } =
        .error (.assertionError "wrong offset value \"-1\"") ∧
      (PyExc.assertionError "wrong offset value \"-1\"").isValueError = false :=
  ⟨by decide, rfl⟩

/-- C5 (amended): for every *positive* offset with a falsy (absent or
zero) limit, `search` raises ValueError before any network activity — the
error is returned instead of the `MiscCall` that models the only socket
write of the method, so nothing is written or read and the connection
state is untouched.  (A negative offset instead fails the `0 <= offset`
assertion, also before any network activity.) -/
theorem c5_offset_requires_limit (p : SearchParams) (o : Int)
    (hoff : p.offset = some o) (hpos : 0 < o)
    (hlim : p.limit = Option.none ∨ p.limit = some 0) :
    searchCall p =
      .error (.valueError "Offset cannot be specified without limit.") := by
  have hg : searchGuards p =
      some (.valueError "Offset cannot be specified without limit.") := by
    rcases hlim with h | h <;>
      simp [searchGuards, hoff, h, truthyInt, hpos.ne', not_lt.mpr hpos.le]
  rw [searchCall, hg]

/-- C5 (witness): the amended theorem applied at offset 5, absent limit. -/
theorem c5_witness :
    searchCall { offset := some 5, limit := Option.none } =
      .error (.valueError "Offset cannot be specified without limit.") :=
  c5_offset_requires_limit { offset := some 5, limit := Option.none } 5 rfl
    (by norm_num) (Or.inl rfl)

/-! ### Claim C6 -/

/-- C6 (counterexample): evaluating the same slice `[2:4]` twice on one
query issues two `search` calls, not one — the per-(offset, limit) result
cache of the claim is commented out in the source, so nothing is
memoized. -/
theorem c6_counterexample :
    evalSearchCalls {} [(some 2, some 4), (some 2, some 4)] = 2 ∧
      (2 : Nat) ≠ 1 := by
  exact ⟨by decide, by decide⟩

/-- C6 (amended): every evaluation of a slice that reaches the network
issues exactly one `search` call, and evaluations do not interact: `n`
evaluations of the same slice issue `n` calls (no memoization; the cache
code in `__getitem__` is disabled). -/
theorem c6_no_memoization (q : QueryData) (start stop : Option Int)
    (mc : MiscCall) (h : getitemSlicePlan q start stop = .ok mc) (n : Nat) :
    sliceSearchCalls q start stop = 1 ∧
      evalSearchCalls q (List.replicate n (start, stop)) = n := by
  have h1 : sliceSearchCalls q start stop = 1 := by
    simp [sliceSearchCalls, h]
  refine ⟨h1, ?_⟩
  simp [evalSearchCalls, List.map_replicate, h1, List.sum_replicate]

/-- C6 (witness): the amended theorem applied to the slice `[2:4]` of the
condition-free query, repeated twice. -/
theorem c6_witness :
    sliceSearchCalls {} (some 2) (some 4) = 1 ∧
      evalSearchCalls {} (List.replicate 2 (some 2, some 4)) = 2 :=
  c6_no_memoization {} (some 2) (some 4)
    ⟨"search", ["setlimit\u00002\u00002"], 0⟩ (by decide) 2

/-! ### Claim C9 -/

lemma except_error_bind {α β : Type} (e : PyExc) (f : α → Except PyExc β) :
    (Except.error e >>= f) = Except.error e := rfl

lemma except_ok_bind {α β : Type} (a : α) (f : α → Except PyExc β) :
    (Except.ok a >>= f) = f a := rfl

lemma except_pure {α : Type} (a : α) :
    (pure a : Except PyExc α) = Except.ok a := rfl

lemma argCmd_append (pre r : String)
    (h : ¬(pre.data.takeWhile (fun c => c != Char.ofNat 0)).length =
      pre.data.length) :
    argCmd (pre ++ r) = argCmd pre := by
  unfold argCmd
  rw [String.data_append, List.takeWhile_append, if_neg h]

lemma argCmd_condArg (c : String × Nat × PyExpr) :
    argCmd (condArg c) = "addcond" := by
  unfold condArg
  simp only [String.append_assoc]
  rw [argCmd_append _ _ (by decide)]
  decide

lemma argCmd_mstype (t : Nat) :
    argCmd ("mstype\u0000" ++ toString t) = "mstype" := by
  rw [argCmd_append _ _ (by decide)]
  decide

lemma argCmd_get (r : String) : argCmd ("get\u0000" ++ r) = "get" := by
  rw [argCmd_append _ _ (by decide)]
  decide

lemma argCmd_setorder (c r : String) :
    argCmd ("setorder\u0000" ++ c ++ "\u0000" ++ r) = "setorder" := by
  simp only [String.append_assoc]
  rw [argCmd_append _ _ (by decide)]
  decide

lemma msArgs_no_setlimit (p : SearchParams) (s : String) (hs : s ∈ msArgs p) :
    argCmd s ≠ "setlimit" := by
  obtain ⟨pc, pl, po, pot, poc, pop, pmsC, pmsT, pcols, pout, pcnt, pht⟩ := p
  unfold msArgs at hs
  dsimp only at hs
  cases pmsT with
  | none => simp at hs
  | some t =>
    cases pmsC with
    | none => simp at hs
    | some conds =>
      cases conds with
      | nil => simp at hs
      | cons c0 crest =>
        simp only [List.isEmpty_cons, Bool.false_eq_true, if_false,
          List.mem_cons, List.mem_flatten, List.mem_map] at hs
        rcases hs with rfl | ⟨l, ⟨cs, _, rfl⟩, hsl⟩
        · rw [argCmd_mstype]; decide
        · rcases List.mem_cons.mp hsl with rfl | hmem
          · intro hcontra
            exact absurd hcontra (by decide)
          · obtain ⟨c, _, rfl⟩ := List.mem_map.mp hmem
            rw [argCmd_condArg]; decide

lemma colArgs_no_setlimit (p : SearchParams) (s : String) (hs : s ∈ colArgs p) :
    argCmd s ≠ "setlimit" := by
  obtain ⟨pc, pl, po, pot, poc, pop, pmsC, pmsT, pcols, pout, pcnt, pht⟩ := p
  unfold colArgs at hs
  dsimp only at hs
  cases pcols with
  | none => simp at hs
  | some cs =>
    cases cs with
    | nil => simp at hs
    | cons c0 crest =>
      simp only [List.isEmpty_cons, Bool.false_eq_true, if_false,
        List.mem_singleton] at hs
      subst hs
      rw [argCmd_get]; decide

lemma orderArgs_no_setlimit (p : SearchParams) (s : String)
    (hs : s ∈ orderArgs p) : argCmd s ≠ "setlimit" := by
  obtain ⟨pc, pl, po, pot, poc, pop, pmsC, pmsT, pcols, pout, pcnt, pht⟩ := p
  unfold orderArgs at hs
  dsimp only at hs
  cases poc with
  | none => simp at hs
  | some c =>
    dsimp only at hs
    cases hemp : c.isEmpty with
    | true => rw [hemp] at hs; simp at hs
    | false =>
      rw [hemp] at hs
      simp only [Bool.false_eq_true, if_false, List.mem_singleton] at hs
      subst hs
      rw [argCmd_setorder]; decide

/-- A successful `search` with a falsy limit sends no `setlimit` clause. -/
lemma searchCall_no_setlimit (p : SearchParams) (mc : MiscCall)
    (hlim : truthyInt p.limit = false) (h : searchCall p = .ok mc) :
    mc.func = "search" ∧ ∀ s ∈ mc.args, argCmd s ≠ "setlimit" := by
  unfold searchCall at h
  cases hg : searchGuards p with
  | some e => rw [hg] at h; exact absurd h (by simp)
  | none =>
    rw [hg, hlim] at h
    simp only [Bool.false_eq_true, if_false, except_pure, except_ok_bind] at h
    obtain rfl : mc = _ := (Except.ok.inj h).symm
    refine ⟨rfl, ?_⟩
    intro s hs
    simp only [List.append_assoc, List.nil_append, List.mem_append] at hs
    rcases hs with hs | hs | hs | hs | hs | hs | hs
    · obtain ⟨c, _, rfl⟩ := List.mem_map.mp hs
      rw [argCmd_condArg]; decide
    · exact msArgs_no_setlimit p s hs
    · exact colArgs_no_setlimit p s hs
    · exact orderArgs_no_setlimit p s hs
    · cases hb : p.out with
      | false => rw [hb] at hs; simp at hs
      | true =>
        rw [hb] at hs
        simp only [if_true, List.mem_singleton] at hs
        subst hs; decide
    · cases hb : p.count with
      | false => rw [hb] at hs; simp at hs
      | true =>
        rw [hb] at hs
        simp only [if_true, List.mem_singleton] at hs
        subst hs; decide
    · cases hb : p.hint with
      | false => rw [hb] at hs; simp at hs
      | true =>
        rw [hb] at hs
        simp only [if_true, List.mem_singleton] at hs
        subst hs; decide

lemma applyColumns_limit (q : QueryData) (p : SearchParams) :
    (applyColumns q p).limit = p.limit := by
  unfold applyColumns
  cases q.columns with
  | none => rfl
  | some cs => cases cs <;> simp

lemma applyOrdering_limit (q : QueryData) (p : SearchParams) :
    (applyOrdering q p).limit = p.limit := by
  unfold applyOrdering
  cases q.ordering.truthy <;> simp

lemma applyMeta_limit (q : QueryData) (p p2 : SearchParams)
    (h : applyMeta q p = .ok p2) : p2.limit = p.limit := by
  unfold applyMeta at h
  cases hm : q.msConditions with
  | none => rw [hm] at h; cases Except.ok.inj h; rfl
  | some mcs =>
    rw [hm] at h
    cases mcs with
    | nil => simp only [List.isEmpty_nil, if_true] at h; cases Except.ok.inj h; rfl
    | cons m0 mrest =>
      simp only [List.isEmpty_cons, Bool.false_eq_true, if_false] at h
      cases hpl : prepareAllLists (m0 :: mrest) with
      | error e => rw [hpl, except_error_bind] at h; exact absurd h (by simp)
      | ok pmcs =>
        rw [hpl, except_ok_bind] at h
        cases Except.ok.inj h; rfl

/-- An `ok` result of `_do_search` comes from a `searchCall` whose limit
parameter is the one `_do_search` was given (the query-state updates touch
only columns, ordering and metasearch fields). -/
lemma doSearch_ok_limit (q : QueryData)
    (conds : Option (List (String × Nat × PyExpr))) (limit offset : Option Int)
    (outF cntF hntF : Bool) (mc : MiscCall)
    (h : doSearch q conds limit offset outF cntF hntF = .ok mc) :
    ∃ p : SearchParams, searchCall p = .ok mc ∧ p.limit = limit := by
  unfold doSearch at h
  cases hc : (match conds with
      | some cs => if cs.isEmpty then prepareAll q.conditions else pure cs
      | Option.none => prepareAll q.conditions) with
  | error e =>
    rw [hc, except_error_bind] at h
    exact absurd h (by simp)
  | ok ps =>
    rw [hc, except_ok_bind] at h
    cases ha : applyMeta q (applyOrdering q (applyColumns q
        { conditions := ps, limit := limit, offset := offset,
          out := outF, count := cntF, hint := hntF })) with
    | error e => rw [ha, except_error_bind] at h; exact absurd h (by simp)
    | ok p =>
      rw [ha, except_ok_bind] at h
      refine ⟨p, h, ?_⟩
      rw [applyMeta_limit _ _ _ ha, applyOrdering_limit, applyColumns_limit]

/-- C9: a zero-length slice `q[a:a]` with `a > 0` is rejected with
ValueError before any network call, while `q[0:0]` passes the guards, is
evaluated with offset 0 and limit 0, and the search it issues carries no
`setlimit` clause (so the server applies its default, returning the full
result). -/
theorem c9_zero_length_slices :
    (∀ (q : QueryData) (a : Int), 0 < a →
        getitemSlicePlan q (some a) (some a) =
          .error (.valueError "Zero-length slices are not supported")) ∧
      sliceGuards (some 0) (some 0) = Option.none ∧
      sliceOffsetLimit (some 0) (some 0) = (0, some 0) ∧
      (∀ (q : QueryData) (mc : MiscCall),
          getitemSlicePlan q (some 0) (some 0) = .ok mc →
          mc.func = "search" ∧ ∀ s ∈ mc.args, argCmd s ≠ "setlimit") := by
  refine ⟨?_, by decide, by decide, ?_⟩
  · intro q a ha
    have h1 : sliceGuards (some a) (some a) =
        some (.valueError "Zero-length slices are not supported") := by
      simp [sliceGuards, truthyInt, ha.ne', not_lt.mpr ha.le]
    unfold getitemSlicePlan
    rw [h1]
    rfl
  · intro q mc h
    unfold getitemSlicePlan at h
    rw [(by decide : sliceGuards (some 0) (some 0) = Option.none)] at h
    cases hp : prepareAll q.conditions with
    | error e => rw [hp, except_error_bind] at h; exact absurd h (by simp)
    | ok ps =>
      rw [hp, except_ok_bind] at h
      obtain ⟨p, hcall, hlim⟩ := doSearch_ok_limit _ _ _ _ _ _ _ _ h
      exact searchCall_no_setlimit p mc
        (by rw [hlim]; decide) hcall

/-- C9 (witness): the theorem applied to the condition-free query, slice
bound 3 for the first part and the concrete `[0:0]` plan for the last. -/
theorem c9_witness :
    getitemSlicePlan {} (some 3) (some 3) =
        .error (.valueError "Zero-length slices are not supported") ∧
      ((⟨"search", [], 0⟩ : MiscCall).func = "search" ∧
        ∀ s ∈ (⟨"search", [], 0⟩ : MiscCall).args, argCmd s ≠ "setlimit") :=
  ⟨c9_zero_length_slices.1 {} 3 (by norm_num),
    c9_zero_length_slices.2.2.2 {} ⟨"search", [], 0⟩ (by decide)⟩

/-! ### Claim C7

The proof plan: every operation's result heap agrees with the input heap
below the old length (`PB`, allocations go above, mutations hit only
fresh cells or the freshly allocated conditions list), so dereferencing
the original query is unchanged (`obsQuery_mono`); and every structural
reference of the returned query is fresh (`≥` the old heap length), so the
only references the two queries can share — and hence the only shared
mutable objects — are expression objects. -/

/-- Heap extension/mutation discipline: everything below `n` reads as in
`h`. -/
lemma pb_refl (n : Nat) (h : Heap) (hn : n ≤ h.length) : PB n h h :=
  ⟨hn, fun _ _ => rfl⟩

lemma pb_alloc (n : Nat) (h h2 : Heap) (c : Cell) (hp : PB n h h2) :
    PB n h (halloc h2 c).1 := by
  refine ⟨?_, fun r hr => ?_⟩
  · simpa [halloc] using Nat.le_succ_of_le hp.1
  · have : r < h2.length := lt_of_lt_of_le hr hp.1
    rw [halloc, List.getElem?_append, if_pos this]
    exact hp.2 r hr

lemma pb_set (n : Nat) (h h2 : Heap) (i : Nat) (c : Cell) (hp : PB n h h2)
    (hi : n ≤ i) : PB n h (hset h2 i c) := by
  refine ⟨by simpa [hset] using hp.1, fun r hr => ?_⟩
  rw [hset, List.getElem?_set_ne (by omega : i ≠ r)]
  exact hp.2 r hr

lemma pb_appendToList (n : Nat) (h h2 : Heap) (lr er : Nat) (hp : PB n h h2)
    (hl : n ≤ lr) : PB n h (appendToList h2 lr er) := by
  unfold appendToList
  cases h2[lr]? with
  | none => exact hp
  | some c => cases c <;> first | exact hp | exact pb_set _ _ _ _ _ hp hl

lemma pb_cloneCond (n : Nat) (h h2 : Heap) (r : Nat) (hp : PB n h h2) :
    PB n h (cloneCond h2 r).1 := by
  unfold cloneCond
  cases h2[r]? with
  | none => exact pb_alloc _ _ _ _ hp
  | some c => cases c <;> exact pb_alloc _ _ _ _ hp

lemma cloneCond_ref (h : Heap) (r : Nat) :
    (cloneCond h r).2 = h.length ∧ (cloneCond h r).1.length = h.length + 1 := by
  unfold cloneCond
  cases h[r]? with
  | none => exact ⟨rfl, by simp [halloc]⟩
  | some c => cases c <;> exact ⟨rfl, by simp [halloc]⟩

lemma pb_cloneConds (n : Nat) (h h2 : Heap) (rs : List Nat) (hp : PB n h h2) :
    PB n h (cloneConds h2 rs).1 ∧
      ∀ r ∈ (cloneConds h2 rs).2, h2.length ≤ r := by
  induction rs generalizing h2 with
  | nil => exact ⟨hp, by simp [cloneConds]⟩
  | cons a rest ih =>
    have h1 := pb_cloneCond n h h2 a hp
    have hr := cloneCond_ref h2 a
    obtain ⟨hrest, hrefs⟩ := ih (cloneCond h2 a).1 h1
    refine ⟨hrest, ?_⟩
    intro r hrmem
    simp only [cloneConds, List.mem_cons] at hrmem
    rcases hrmem with rfl | hmem
    · omega
    · have := hrefs r hmem
      omega

lemma pb_trans_len (n : Nat) (h h2 h3 : Heap) (hp1 : PB n h h2)
    (hp2 : PB h2.length h2 h3) (hn : n ≤ h2.length) : PB n h h3 := by
  refine ⟨le_trans hn hp2.1, fun r hr => ?_⟩
  rw [hp2.2 r (lt_of_lt_of_le hr hn)]
  exact hp1.2 r hr

lemma getElem?_lt {h : Heap} {r : Nat} {c : Cell} (hr : h[r]? = some c) :
    r < h.length :=
  (List.getElem?_eq_some_iff.mp hr).1

lemma getCList_lt {h : Heap} {r : Nat} {es : List Nat}
    (hr : getCList h r = some es) : r < h.length := by
  unfold getCList at hr
  cases hc : h[r]? with
  | none => rw [hc] at hr; cases hr
  | some c => exact getElem?_lt hc

lemma getCList_mono {h h2 : Heap} {r : Nat} {es : List Nat}
    (hp : ∀ i, i < h.length → h2[i]? = h[i]?)
    (hr : getCList h r = some es) : getCList h2 r = some es := by
  unfold getCList at *
  cases hc : h[r]? with
  | none => rw [hc] at hr; cases hr
  | some c => rw [hp r (getElem?_lt hc), hc]; rw [hc] at hr; exact hr

lemma getStrs_mono {h h2 : Heap} {r : Nat} {es : List String}
    (hp : ∀ i, i < h.length → h2[i]? = h[i]?)
    (hr : getStrs h r = some es) : getStrs h2 r = some es := by
  unfold getStrs at *
  cases hc : h[r]? with
  | none => rw [hc] at hr; cases hr
  | some c => rw [hp r (getElem?_lt hc), hc]; rw [hc] at hr; exact hr

lemma obsCond_mono {h h2 : Heap} {r : Nat} {c : CondObs}
    (hp : ∀ i, i < h.length → h2[i]? = h[i]?)
    (hc : obsCond h r = some c) : obsCond h2 r = some c := by
  unfold obsCond at *
  cases hr : h[r]? with
  | none => rw [hr] at hc; cases hc
  | some cell =>
    rw [hp r (getElem?_lt hr), hr]
    rw [hr] at hc
    cases cell with
    | ccond n l e g =>
      dsimp only at hc ⊢
      cases he : h[e]? with
      | none => rw [he] at hc; cases hc
      | some ecell =>
        rw [hp e (getElem?_lt he), he]
        rw [he] at hc
        exact hc
    | clist es => dsimp only at hc; cases hc
    | cexpr v => dsimp only at hc; cases hc
    | cstrs es => dsimp only at hc; cases hc

lemma obsConds_mono {h h2 : Heap} {rs : List Nat} {cs : List CondObs}
    (hp : ∀ i, i < h.length → h2[i]? = h[i]?)
    (hc : obsConds h rs = some cs) : obsConds h2 rs = some cs := by
  induction rs generalizing cs with
  | nil => simpa [obsConds] using hc
  | cons a rest ih =>
    unfold obsConds at hc ⊢
    cases ha : obsCond h a with
    | none => rw [ha] at hc; cases hc
    | some c0 =>
      rw [obsCond_mono hp ha]
      rw [ha] at hc
      cases hrest : obsConds h rest with
      | none => rw [hrest] at hc; cases hc
      | some cs0 =>
        rw [ih hrest]
        rw [hrest] at hc
        exact hc

lemma obsMsLists_mono {h h2 : Heap} {rs : List Nat} {cs : List (List CondObs)}
    (hp : ∀ i, i < h.length → h2[i]? = h[i]?)
    (hc : obsMsLists h rs = some cs) : obsMsLists h2 rs = some cs := by
  induction rs generalizing cs with
  | nil => simpa [obsMsLists] using hc
  | cons a rest ih =>
    unfold obsMsLists at hc ⊢
    cases ha : getCList h a with
    | none => rw [ha] at hc; cases hc
    | some inner =>
      rw [getCList_mono hp ha]
      rw [ha] at hc
      dsimp only at hc ⊢
      cases hin : obsConds h inner with
      | none => rw [hin] at hc; cases hc
      | some cs0 =>
        rw [obsConds_mono hp hin]
        rw [hin] at hc
        cases hrest : obsMsLists h rest with
        | none => rw [hrest] at hc; cases hc
        | some rests =>
          rw [ih hrest]
          rw [hrest] at hc
          exact hc

lemma obsColumns_mono {h h2 : Heap} {q : QueryObj} {v : Option (List String)}
    (hp : ∀ i, i < h.length → h2[i]? = h[i]?)
    (hc : obsColumns h q = some v) : obsColumns h2 q = some v := by
  unfold obsColumns at hc ⊢
  cases hq : q.columns with
  | none => rw [hq] at hc; exact hc
  | some r =>
    rw [hq] at hc
    dsimp only at hc ⊢
    cases hstrs : getStrs h r with
    | none => rw [hstrs] at hc; cases hc
    | some ss =>
      rw [getStrs_mono hp hstrs]
      rw [hstrs] at hc
      exact hc

lemma obsMs_mono {h h2 : Heap} {q : QueryObj} {v : Option (List (List CondObs))}
    (hp : ∀ i, i < h.length → h2[i]? = h[i]?)
    (hc : obsMs h q = some v) : obsMs h2 q = some v := by
  unfold obsMs at hc ⊢
  cases hq : q.msConds with
  | none => rw [hq] at hc; exact hc
  | some r =>
    rw [hq] at hc
    dsimp only at hc ⊢
    cases hml : getCList h r with
    | none => rw [hml] at hc; cases hc
    | some orefs =>
      rw [getCList_mono hp hml]
      rw [hml] at hc
      dsimp only at hc ⊢
      cases hobs : obsMsLists h orefs with
      | none => rw [hobs] at hc; cases hc
      | some inner =>
        rw [obsMsLists_mono hp hobs]
        rw [hobs] at hc
        exact hc

/-- Observable state only reads cells that exist, so any heap evolution
that preserves reads below the original length preserves it. -/
lemma obsQuery_mono {h h2 : Heap} {q : QueryObj} {o : QueryObs}
    (hp : ∀ i, i < h.length → h2[i]? = h[i]?)
    (hc : obsQuery h q = some o) : obsQuery h2 q = some o := by
  unfold obsQuery at hc ⊢
  cases hcr : getCList h q.conditions with
  | none => rw [hcr] at hc; cases hc
  | some condRefs =>
    rw [getCList_mono hp hcr]
    rw [hcr] at hc
    dsimp only at hc ⊢
    cases hconds : obsConds h condRefs with
    | none => rw [hconds] at hc; cases hc
    | some conds =>
      rw [obsConds_mono hp hconds]
      rw [hconds] at hc
      cases hcols : obsColumns h q with
      | none => rw [hcols] at hc; cases hc
      | some cols =>
        rw [obsColumns_mono hp hcols]
        rw [hcols] at hc
        cases hms : obsMs h q with
        | none => rw [hms] at hc; cases hc
        | some ms =>
          rw [obsMs_mono hp hms]
          rw [hms] at hc
          exact hc

lemma structRefs_ge_of_fresh {n : Nat} {h2 : Heap} {q2 : QueryObj}
    (hf : StructFresh n h2 q2) : ∀ r ∈ structRefsOf h2 q2, n ≤ r := by
  intro r hr
  obtain ⟨h1, h2c, h3, h4, h5, h6⟩ := hf
  simp only [structRefsOf, List.mem_cons] at hr
  rcases hr with rfl | hr
  · exact h1
  · rcases List.mem_append.mp hr with hr | he
    · rcases List.mem_append.mp hr with hr | ho
      · rcases List.mem_append.mp hr with hr | hms
        · rcases List.mem_append.mp hr with hc | hcol
          · exact h2c r hc
          · rcases hq : q2.columns with _ | cr
            · rw [hq] at hcol; simp at hcol
            · rw [hq] at hcol
              simp only [List.mem_singleton] at hcol
              subst hcol
              exact h3 r hq
        · rcases hq : q2.msConds with _ | mr
          · rw [hq] at hms; simp at hms
          · rw [hq] at hms
            simp only [List.mem_singleton] at hms
            subst hms
            exact h4 r hq
      · exact h5 r ho
    · exact h6 r he

lemma cloneConds_len (h : Heap) (rs : List Nat) :
    (cloneConds h rs).1.length = h.length + rs.length := by
  induction rs generalizing h with
  | nil => simp [cloneConds]
  | cons a rest ih =>
    have := (cloneCond_ref h a).2
    simp only [cloneConds]
    rw [ih]
    simp only [List.length_cons]
    omega

lemma getCList_concat (h : Heap) (es : List Nat) :
    getCList (h ++ [Cell.clist es]) h.length = some es := by
  unfold getCList
  rw [List.getElem?_concat_length]

/-- The conditions-list stage of `_clone`: heap preserved below, the new
list reference and its contents are fresh, and its contents are readable. -/
lemma cloneCondStep_spec (h : Heap) (q : QueryObj) :
    PB h.length h (cloneCondStep h q).1 ∧
      h.length ≤ (cloneCondStep h q).2 ∧
      (cloneCondStep h q).2 < (cloneCondStep h q).1.length ∧
      ∃ es, getCList (cloneCondStep h q).1 (cloneCondStep h q).2 = some es ∧
        ∀ e ∈ es, h.length ≤ e := by
  unfold cloneCondStep
  obtain ⟨hpb, hrefs⟩ :=
    pb_cloneConds h.length h h ((getCList h q.conditions).getD [])
      (pb_refl _ _ le_rfl)
  refine ⟨pb_alloc _ _ _ _ hpb, hpb.1, by simp [halloc],
    ⟨_, getCList_concat _ _, hrefs⟩⟩

lemma cloneMsLists_spec (h : Heap) (rs : List Nat) :
    PB h.length h (cloneMsLists h rs).1 ∧
      ∀ r ∈ (cloneMsLists h rs).2, h.length ≤ r ∧
        r < (cloneMsLists h rs).1.length ∧
        ∃ es, getCList (cloneMsLists h rs).1 r = some es ∧
          ∀ e ∈ es, h.length ≤ e := by
  induction rs generalizing h with
  | nil => exact ⟨pb_refl _ _ le_rfl, by simp [cloneMsLists]⟩
  | cons a rest ih =>
    simp only [cloneMsLists]
    obtain ⟨hpb1, hrefs1⟩ :=
      pb_cloneConds h.length h h ((getCList h a).getD []) (pb_refl _ _ le_rfl)
    set s1 := cloneConds h ((getCList h a).getD []) with hs1
    set s2 := halloc s1.1 (.clist s1.2) with hs2
    obtain ⟨hpb3, hrefs3⟩ := ih s2.1
    have hpb2 : PB h.length h s2.1 := pb_alloc _ _ _ _ hpb1
    have hlen2 : h.length ≤ s2.1.length := hpb2.1
    have hlt22 : s2.2 < s2.1.length := by simp [hs2, halloc]
    refine ⟨pb_trans_len _ _ _ _ hpb2 hpb3 hlen2, ?_⟩
    intro r hr
    simp only [List.mem_cons] at hr
    rcases hr with rfl | hmem
    · refine ⟨hpb1.1, lt_of_lt_of_le hlt22 hpb3.1, s1.2, ?_, hrefs1⟩
      have hbase : getCList s2.1 s2.2 = some s1.2 := getCList_concat _ _
      exact getCList_mono (fun i hi => hpb3.2 i hi) hbase
    · obtain ⟨hge, hlt, es, hes, hesge⟩ := hrefs3 r hmem
      exact ⟨le_trans hlen2 hge, hlt, es, hes,
        fun e he => le_trans hlen2 (hesge e he)⟩

lemma cloneMsStep_spec (h : Heap) (q : QueryObj) :
    PB h.length h (cloneMsStep h q).1 ∧
      ∀ mr, (cloneMsStep h q).2 = some mr →
        h.length ≤ mr ∧
          ∃ os, getCList (cloneMsStep h q).1 mr = some os ∧
            ∀ o2 ∈ os, h.length ≤ o2 ∧ o2 < mr ∧
              ∃ es, getCList (cloneMsStep h q).1 o2 = some es ∧
                ∀ e ∈ es, h.length ≤ e := by
  unfold cloneMsStep
  cases hq : q.msConds with
  | none => exact ⟨pb_refl _ _ le_rfl, by intro mr hmr; cases hmr⟩
  | some r =>
    dsimp only
    cases hl : getCList h r with
    | none => exact ⟨pb_refl _ _ le_rfl, by intro mr hmr; cases hmr⟩
    | some os0 =>
      cases os0 with
      | nil => exact ⟨pb_refl _ _ le_rfl, by intro mr hmr; cases hmr⟩
      | cons o os =>
        dsimp only
        obtain ⟨hpb1, hrefs1⟩ := cloneMsLists_spec h (o :: os)
        set t1 := cloneMsLists h (o :: os) with ht1
        set t2 := halloc t1.1 (.clist t1.2) with ht2
        refine ⟨pb_alloc _ _ _ _ hpb1, ?_⟩
        intro mr hmr
        obtain rfl : t2.2 = mr := Option.some.inj hmr
        have hbase : getCList t2.1 t2.2 = some t1.2 := getCList_concat _ _
        refine ⟨hpb1.1, t1.2, hbase, ?_⟩
        intro o2 ho2
        obtain ⟨hge, hlt, es, hes, hesge⟩ := hrefs1 o2 ho2
        refine ⟨hge, hlt, es, ?_, hesge⟩
        rw [ht2, halloc]
        unfold getCList at hes ⊢
        rw [List.getElem?_append, if_pos hlt]
        exact hes

lemma cloneColsStep_spec (h : Heap) (q : QueryObj) :
    PB h.length h (cloneColsStep h q).1 ∧
      ∀ cr, (cloneColsStep h q).2 = some cr → h.length ≤ cr := by
  unfold cloneColsStep
  cases hq : q.columns with
  | none => exact ⟨pb_refl _ _ le_rfl, by intro cr hcr; cases hcr⟩
  | some r =>
    dsimp only
    cases hl : getStrs h r with
    | none => exact ⟨pb_refl _ _ le_rfl, by intro cr hcr; cases hcr⟩
    | some ss =>
      cases ss with
      | nil => exact ⟨pb_refl _ _ le_rfl, by intro cr hcr; cases hcr⟩
      | cons c cs =>
        dsimp only
        refine ⟨pb_alloc _ _ _ _ (pb_refl _ _ le_rfl), ?_⟩
        intro cr hcr
        obtain rfl : h.length = cr := Option.some.inj hcr
        exact le_rfl

lemma cloneQuery_spec (h : Heap) (q : QueryObj) :
    PB h.length h (cloneQuery h q).1 ∧
      StructFresh h.length (cloneQuery h q).1 (cloneQuery h q).2 := by
  obtain ⟨hpb2, hge2, hlt2, es2, hes2, hes2ge⟩ := cloneCondStep_spec h q
  obtain ⟨hpbm, hmspec⟩ := cloneMsStep_spec (cloneCondStep h q).1 q
  obtain ⟨hpbc, hcspec⟩ :=
    cloneColsStep_spec (cloneMsStep (cloneCondStep h q).1 q).1 q
  set s2 := cloneCondStep h q with hs2d
  set ms := cloneMsStep s2.1 q with hmsd
  set cols := cloneColsStep ms.1 q with hcolsd
  have hQ : cloneQuery h q = (cols.1, { literal := q.literal, conditions := s2.2, ordering := {}, columns := cols.2, msType := q.msType, msConds := ms.2 }) := rfl
  have hlen1 : h.length ≤ s2.1.length := hpb2.1
  have hlen2 : s2.1.length ≤ ms.1.length := hpbm.1
  have hreads : ∀ i, i < s2.1.length → cols.1[i]? = s2.1[i]? :=
    fun i hi => (hpbc.2 i (lt_of_lt_of_le hi hlen2)).trans (hpbm.2 i hi)
  rw [hQ]
  dsimp only
  constructor
  · exact pb_trans_len _ _ _ _ (pb_trans_len _ _ _ _ hpb2 hpbm hlen1) hpbc
      (le_trans hlen1 hlen2)
  refine ⟨hge2, ?_, ?_, ?_, ?_, ?_⟩
  · intro e he
    unfold condRefsOf at he
    dsimp only at he
    rw [getCList_mono hreads hes2] at he
    exact hes2ge e he
  · intro cr hcr
    exact le_trans (le_trans hlen1 hlen2) (hcspec cr hcr)
  · intro mr hmr
    exact le_trans hlen1 (hmspec mr hmr).1
  · intro o2 ho2
    unfold msOuterRefs at ho2
    dsimp only at ho2
    cases hmr : ms.2 with
    | none => rw [hmr] at ho2; simp at ho2
    | some mr =>
      rw [hmr] at ho2
      dsimp only at ho2
      obtain ⟨_, os, hos, hoselems⟩ := hmspec mr hmr
      rw [getCList_mono hpbc.2 hos] at ho2
      exact le_trans hlen1 (hoselems o2 ho2).1
  · intro e he
    unfold msCondRefs msOuterRefs at he
    dsimp only at he
    cases hmr : ms.2 with
    | none => rw [hmr] at he; simp at he
    | some mr =>
      rw [hmr] at he
      dsimp only at he
      obtain ⟨_, os, hos, hoselems⟩ := hmspec mr hmr
      rw [getCList_mono hpbc.2 hos] at he
      simp only [List.mem_flatten, List.mem_map] at he
      obtain ⟨l, ⟨o2, ho2, rfl⟩, hel⟩ := he
      obtain ⟨_, es, hes, hesge⟩ := (hoselems o2 ho2).2
      rw [getCList_mono hpbc.2 hes] at hel
      exact le_trans hlen1 (hesge e hel)

lemma getCList_eq_some {h : Heap} {r : Nat} {es : List Nat} :
    getCList h r = some es ↔ h[r]? = some (.clist es) := by
  unfold getCList
  cases hc : h[r]? with
  | none => simp
  | some c => cases c <;> simp

lemma getStrs_lt {h : Heap} {r : Nat} {es : List String}
    (hr : getStrs h r = some es) : r < h.length := by
  unfold getStrs at hr
  cases hc : h[r]? with
  | none => rw [hc] at hr; cases hr
  | some c => exact getElem?_lt hc

/-- `cloneCond` always allocates a fresh condition cell at the end. -/
lemma cloneCond_cell (h : Heap) (a : Nat) :
    ∃ c : Cell, (∃ nm lk e g, c = Cell.ccond nm lk e g) ∧
      cloneCond h a = (h ++ [c], h.length) := by
  unfold cloneCond
  cases h[a]? with
  | none => exact ⟨_, ⟨_, _, _, _, rfl⟩, rfl⟩
  | some c => cases c <;> exact ⟨_, ⟨_, _, _, _, rfl⟩, rfl⟩

/-- Full description of `cloneQuery`: reads below the old heap length are
preserved, and the copied structural references are fresh, allocated
after the original heap (the conditions list before the metasearch
lists) and readable in the copy heap. -/
lemma cloneQuery_ok (h : Heap) (q : QueryObj) :
    PB h.length h (cloneQuery h q).1 ∧
      h.length ≤ (cloneQuery h q).2.conditions ∧
      (cloneQuery h q).2.conditions < (cloneQuery h q).1.length ∧
      (∃ es, getCList (cloneQuery h q).1 (cloneQuery h q).2.conditions =
          some es ∧ ∀ e ∈ es, h.length ≤ e) ∧
      (∀ cr, (cloneQuery h q).2.columns = some cr → h.length ≤ cr) ∧
      (∀ mr, (cloneQuery h q).2.msConds = some mr →
        h.length ≤ mr ∧ (cloneQuery h q).2.conditions < mr ∧
          ∃ os, getCList (cloneQuery h q).1 mr = some os ∧
            ∀ o2 ∈ os, h.length ≤ o2 ∧ (cloneQuery h q).2.conditions < o2 ∧
              o2 < mr ∧
              ∃ es, getCList (cloneQuery h q).1 o2 = some es ∧
                ∀ e ∈ es, h.length ≤ e) := by
  obtain ⟨hpb2, hge2, hlt2, es2, hes2, hes2ge⟩ := cloneCondStep_spec h q
  obtain ⟨hpbm, hmspec⟩ := cloneMsStep_spec (cloneCondStep h q).1 q
  obtain ⟨hpbc, hcspec⟩ :=
    cloneColsStep_spec (cloneMsStep (cloneCondStep h q).1 q).1 q
  set s2 := cloneCondStep h q with hs2d
  set ms := cloneMsStep s2.1 q with hmsd
  set cols := cloneColsStep ms.1 q with hcolsd
  have hQ : cloneQuery h q = (cols.1, { literal := q.literal, conditions := s2.2, ordering := {}, columns := cols.2, msType := q.msType, msConds := ms.2 }) := rfl
  have hlen1 : h.length ≤ s2.1.length := hpb2.1
  have hlen2 : s2.1.length ≤ ms.1.length := hpbm.1
  have hlen3 : ms.1.length ≤ cols.1.length := hpbc.1
  have hreads : ∀ i, i < s2.1.length → cols.1[i]? = s2.1[i]? :=
    fun i hi => (hpbc.2 i (lt_of_lt_of_le hi hlen2)).trans (hpbm.2 i hi)
  rw [hQ]
  dsimp only
  refine ⟨?_, hge2, ?_, ?_, ?_, ?_⟩
  · exact pb_trans_len _ _ _ _ (pb_trans_len _ _ _ _ hpb2 hpbm hlen1) hpbc
      (le_trans hlen1 hlen2)
  · exact lt_of_lt_of_le hlt2 (le_trans hlen2 hlen3)
  · exact ⟨es2, getCList_mono hreads hes2, hes2ge⟩
  · intro cr hcr
    exact le_trans (le_trans hlen1 hlen2) (hcspec cr hcr)
  · intro mr hmr
    obtain ⟨hmge, os, hos, hoselems⟩ := hmspec mr hmr
    refine ⟨le_trans hlen1 hmge, lt_of_lt_of_le hlt2 hmge, os,
      getCList_mono hpbc.2 hos, ?_⟩
    intro o2 ho2
    obtain ⟨hoge, holt, es, hes, hesge⟩ := hoselems o2 ho2
    exact ⟨le_trans hlen1 hoge, lt_of_lt_of_le hlt2 hoge, holt,
      es, getCList_mono hpbc.2 hes, fun e he => le_trans hlen1 (hesge e he)⟩

lemma getElem?_set_self_of_lt {l : List Cell} {i : Nat} {c : Cell}
    (h : i < l.length) : (l.set i c)[i]? = some c := by
  simp [List.getElem?_set_self, h]

/-- The positional-argument loop of `_filter` only writes fresh cells and
the conditions list at `cr`: the heap grows, every other existing read is
preserved, and the list at `cr` only gains fresh (≥ `n`) references. -/
lemma filterArgsLoop_spec (neg : Bool) (args : List Nat) (h : Heap)
    (cr n : Nat) (es0 : List Nat) (hcrlt : cr < h.length)
    (hn : n ≤ h.length) (hc : h[cr]? = some (.clist es0))
    (hge : ∀ e ∈ es0, n ≤ e) :
    h.length ≤ (filterArgsLoop h cr neg args).length ∧
      (∀ r, r ≠ cr → r < h.length →
        (filterArgsLoop h cr neg args)[r]? = h[r]?) ∧
      ∃ es, (filterArgsLoop h cr neg args)[cr]? = some (.clist es) ∧
        ∀ e ∈ es, n ≤ e := by
  induction args generalizing h es0 with
  | nil => exact ⟨le_rfl, fun r _ _ => rfl, es0, hc, hge⟩
  | cons a rest ih =>
    obtain ⟨c, ⟨nm, lk, e, g, hcc⟩, hclone⟩ := cloneCond_cell h a
    subst hcc
    have hc1 : (h ++ [Cell.ccond nm lk e g])[h.length]? =
        some (Cell.ccond nm lk e g) := by
      rw [List.getElem?_concat_length]
    have hc2 : (hset (h ++ [Cell.ccond nm lk e g]) h.length
        (Cell.ccond nm lk e (xor g neg)))[cr]? = some (Cell.clist es0) := by
      rw [hset, List.getElem?_set_ne (by omega : h.length ≠ cr),
        List.getElem?_append, if_pos hcrlt, hc]
    have hstep : filterArgsLoop h cr neg (a :: rest) =
        filterArgsLoop (hset (hset (h ++ [Cell.ccond nm lk e g]) h.length
          (Cell.ccond nm lk e (xor g neg))) cr
          (Cell.clist (es0 ++ [h.length]))) cr neg rest := by
      simp only [filterArgsLoop]
      rw [hclone]
      dsimp only
      rw [hc1]
      dsimp only
      unfold appendToList
      rw [hc2]
    set h3 := hset (hset (h ++ [Cell.ccond nm lk e g]) h.length
      (Cell.ccond nm lk e (xor g neg))) cr (Cell.clist (es0 ++ [h.length]))
      with hh3
    have hlen3 : h3.length = h.length + 1 := by
      simp [hh3, hset]
    have hcrmid : cr < ((hset (h ++ [Cell.ccond nm lk e g]) h.length
        (Cell.ccond nm lk e (xor g neg)))).length := by
      simp [hset]
      omega
    have hc3 : h3[cr]? = some (Cell.clist (es0 ++ [h.length])) := by
      rw [hh3, hset]
      exact getElem?_set_self_of_lt hcrmid
    have hge3 : ∀ e2 ∈ es0 ++ [h.length], n ≤ e2 := by
      intro e2 he2
      rcases List.mem_append.mp he2 with h1 | h1
      · exact hge e2 h1
      · simp only [List.mem_singleton] at h1
        omega
    have hpres3 : ∀ r, r ≠ cr → r < h.length → h3[r]? = h[r]? := by
      intro r hne hlt
      rw [hh3, hset, List.getElem?_set_ne (fun hh2 => hne hh2.symm), hset,
        List.getElem?_set_ne (by omega : h.length ≠ r),
        List.getElem?_append, if_pos hlt]
    obtain ⟨ih1, ih2, es, hes, hesge⟩ := ih h3 (es0 ++ [h.length])
      (by omega) (by omega) hc3 hge3
    refine ⟨?_, ?_, es, ?_, hesge⟩
    · rw [hstep]
      omega
    · intro r hne hlt
      rw [hstep, ih2 r hne (by omega), hpres3 r hne hlt]
    · rw [hstep]
      exact hes

/-- The keyword-argument loop of `_filter`: same frame — fresh cells plus
appends of fresh references onto the list at `cr`. -/
lemma filterKwargsLoop_spec (neg : Bool) (kwargs : List (String × PyExpr))
    (h : Heap) (cr n : Nat) (es0 : List Nat) (hcrlt : cr < h.length)
    (hn : n ≤ h.length) (hc : h[cr]? = some (.clist es0))
    (hge : ∀ e ∈ es0, n ≤ e) :
    h.length ≤ (filterKwargsLoop h cr neg kwargs).length ∧
      (∀ r, r ≠ cr → r < h.length →
        (filterKwargsLoop h cr neg kwargs)[r]? = h[r]?) ∧
      ∃ es, (filterKwargsLoop h cr neg kwargs)[cr]? = some (.clist es) ∧
        ∀ e ∈ es, n ≤ e := by
  induction kwargs generalizing h es0 with
  | nil => exact ⟨le_rfl, fun r _ _ => rfl, es0, hc, hge⟩
  | cons a rest ih =>
    obtain ⟨nm, ex⟩ := a
    have hc2 : ((h ++ [Cell.cexpr ex]) ++
        [Cell.ccond (parseLookup nm).1 (parseLookup nm).2 h.length neg])[cr]? =
        some (Cell.clist es0) := by
      rw [List.getElem?_append, if_pos (by simp; omega),
        List.getElem?_append, if_pos hcrlt, hc]
    have hstep : filterKwargsLoop h cr neg ((nm, ex) :: rest) =
        filterKwargsLoop (hset ((h ++ [Cell.cexpr ex]) ++
          [Cell.ccond (parseLookup nm).1 (parseLookup nm).2 h.length neg]) cr
          (Cell.clist (es0 ++ [(h ++ [Cell.cexpr ex]).length]))) cr neg
          rest := by
      simp only [filterKwargsLoop, halloc]
      unfold appendToList
      rw [hc2]
    set h3 := hset ((h ++ [Cell.cexpr ex]) ++
      [Cell.ccond (parseLookup nm).1 (parseLookup nm).2 h.length neg]) cr
      (Cell.clist (es0 ++ [(h ++ [Cell.cexpr ex]).length])) with hh3
    have hlen3 : h3.length = h.length + 2 := by
      simp [hh3, hset]
    have hcrmid : cr < (((h ++ [Cell.cexpr ex]) ++
        [Cell.ccond (parseLookup nm).1 (parseLookup nm).2 h.length
          neg])).length := by
      simp
      omega
    have hc3 : h3[cr]? =
        some (Cell.clist (es0 ++ [(h ++ [Cell.cexpr ex]).length])) := by
      rw [hh3, hset]
      exact getElem?_set_self_of_lt hcrmid
    have hge3 : ∀ e2 ∈ es0 ++ [(h ++ [Cell.cexpr ex]).length], n ≤ e2 := by
      intro e2 he2
      rcases List.mem_append.mp he2 with h1 | h1
      · exact hge e2 h1
      · simp only [List.mem_singleton] at h1
        subst h1
        simp
        omega
    have hpres3 : ∀ r, r ≠ cr → r < h.length → h3[r]? = h[r]? := by
      intro r hne hlt
      rw [hh3, hset, List.getElem?_set_ne (fun hh2 => hne hh2.symm),
        List.getElem?_append, if_pos (by simp; omega),
        List.getElem?_append, if_pos hlt]
    obtain ⟨ih1, ih2, es, hes, hesge⟩ :=
      ih h3 (es0 ++ [(h ++ [Cell.cexpr ex]).length]) (by omega) (by omega)
        hc3 hge3
    refine ⟨?_, ?_, es, ?_, hesge⟩
    · rw [hstep]
      omega
    · intro r hne hlt
      rw [hstep, ih2 r hne (by omega), hpres3 r hne hlt]
    · rw [hstep]
      exact hes

/-- The extend loop of `Query.columns` only writes the fresh list at `r`:
length and every other read are preserved. -/
lemma columnsLoop_spec (names : List String) (iter : List String) (h : Heap)
    (r : Nat) :
    h.length ≤ (columnsLoop h r names iter).length ∧
      ∀ i, i ≠ r → i < h.length →
        (columnsLoop h r names iter)[i]? = h[i]? := by
  induction iter generalizing h with
  | nil => exact ⟨le_rfl, fun i _ _ => rfl⟩
  | cons a rest ih =>
    simp only [columnsLoop]
    cases hcell : h[r]? with
    | none => exact ih h
    | some c =>
      cases c with
      | clist es => exact ih h
      | ccond nm lk e g => exact ih h
      | cexpr v => exact ih h
      | cstrs es =>
        obtain ⟨ih1, ih2⟩ := ih (hset h r (Cell.cstrs (es ++ names)))
        refine ⟨?_, ?_⟩
        · have h2 := ih1
          simp only [hset, List.length_set] at h2
          exact h2
        · intro i hne hlt
          rw [ih2 i hne (by simpa [hset] using hlt)]
          rw [hset, List.getElem?_set_ne (fun hh => hne hh.symm)]

/-- Transfer of metasearch freshness along a heap evolution that
preserves every read except (possibly) the conditions list. -/
lemma msFresh_transfer (n : Nat) (H H2 : Heap) (q2 : QueryObj)
    (hT : ∀ i, i ≠ q2.conditions → i < H.length → H2[i]? = H[i]?)
    (hms : ∀ mr, q2.msConds = some mr →
      n ≤ mr ∧ q2.conditions < mr ∧
        ∃ os, getCList H mr = some os ∧
          ∀ o2 ∈ os, n ≤ o2 ∧ q2.conditions < o2 ∧ o2 < mr ∧
            ∃ es, getCList H o2 = some es ∧ ∀ e ∈ es, n ≤ e) :
    (∀ o2 ∈ msOuterRefs H2 q2, n ≤ o2) ∧
      (∀ e ∈ msCondRefs H2 q2, n ≤ e) := by
  constructor
  · intro o2 ho2
    unfold msOuterRefs at ho2
    cases hmc : q2.msConds with
    | none => rw [hmc] at ho2; simp at ho2
    | some mr =>
      rw [hmc] at ho2
      dsimp only at ho2
      obtain ⟨hmge, hmgt, os, hos, hoselems⟩ := hms mr hmc
      have hmrlt : mr < H.length := getCList_lt hos
      have hos2 : getCList H2 mr = some os := by
        apply getCList_eq_some.mpr
        rw [hT mr (by omega) hmrlt]
        exact getCList_eq_some.mp hos
      rw [hos2] at ho2
      exact (hoselems o2 (by simpa using ho2)).1
  · intro e he
    unfold msCondRefs msOuterRefs at he
    cases hmc : q2.msConds with
    | none => rw [hmc] at he; simp at he
    | some mr =>
      rw [hmc] at he
      dsimp only at he
      obtain ⟨hmge, hmgt, os, hos, hoselems⟩ := hms mr hmc
      have hmrlt : mr < H.length := getCList_lt hos
      have hos2 : getCList H2 mr = some os := by
        apply getCList_eq_some.mpr
        rw [hT mr (by omega) hmrlt]
        exact getCList_eq_some.mp hos
      rw [hos2] at he
      simp only [Option.getD_some, List.mem_flatten, List.mem_map] at he
      obtain ⟨l, ⟨o2, ho2, rfl⟩, hel⟩ := he
      obtain ⟨hoge, hogt, holtm, esI, hesI, hesIge⟩ := hoselems o2 ho2
      have hesI2 : getCList H2 o2 = some esI := by
        apply getCList_eq_some.mpr
        rw [hT o2 (by omega) (lt_trans holtm hmrlt)]
        exact getCList_eq_some.mp hesI
      rw [hesI2] at hel
      exact hesIge e (by simpa using hel)

/-- `Query.filter` / `Query.exclude` (`_filter`): the heap grows, every
read below the original heap is preserved, and the returned query's
structural references are all fresh. -/
lemma pyFilter_ok (h : Heap) (q : QueryObj) (neg : Bool) (args : List Nat)
    (kwargs : List (String × PyExpr)) :
    h.length ≤ (pyFilter h q neg args kwargs).1.length ∧
      (∀ r, r < h.length → (pyFilter h q neg args kwargs).1[r]? = h[r]?) ∧
      StructFresh h.length (pyFilter h q neg args kwargs).1
        (pyFilter h q neg args kwargs).2 := by
  obtain ⟨hpb, hge2, hlt2, ⟨es2, hes2, hes2ge⟩, hcols, hms⟩ := cloneQuery_ok h q
  set c0 := cloneQuery h q with hc0
  have hcell2 : c0.1[c0.2.conditions]? = some (Cell.clist es2) :=
    getCList_eq_some.mp hes2
  obtain ⟨ha1, ha2, es3, hes3, hes3ge⟩ :=
    filterArgsLoop_spec neg args c0.1 c0.2.conditions h.length es2 hlt2
      hpb.1 hcell2 hes2ge
  set h1 := filterArgsLoop c0.1 c0.2.conditions neg args with hh1
  obtain ⟨hb1, hb2, es4, hes4, hes4ge⟩ :=
    filterKwargsLoop_spec neg kwargs h1 c0.2.conditions h.length es3
      (lt_of_lt_of_le hlt2 ha1) (le_trans hpb.1 ha1) hes3 hes3ge
  set h2 := filterKwargsLoop h1 c0.2.conditions neg kwargs with hh2
  have hres : pyFilter h q neg args kwargs = (h2, c0.2) := rfl
  rw [hres]
  dsimp only
  have hreads : ∀ r, r < h.length → h2[r]? = h[r]? := by
    intro r hr
    have hne : r ≠ c0.2.conditions := by omega
    rw [hb2 r hne (lt_of_lt_of_le (lt_of_lt_of_le hr hpb.1) ha1),
      ha2 r hne (lt_of_lt_of_le hr hpb.1), hpb.2 r hr]
  have hreadsM : ∀ r, r ≠ c0.2.conditions → r < c0.1.length →
      h2[r]? = c0.1[r]? := by
    intro r hne hr
    rw [hb2 r hne (lt_of_lt_of_le hr ha1), ha2 r hne hr]
  obtain ⟨houter, hmscond⟩ :=
    msFresh_transfer h.length c0.1 h2 c0.2 hreadsM hms
  refine ⟨le_trans (le_trans hpb.1 ha1) hb1, hreads,
    hge2, ?_, hcols, fun mr hmr => (hms mr hmr).1, houter, hmscond⟩
  intro e he
  unfold condRefsOf at he
  rw [getCList_eq_some.mpr hes4] at he
  exact hes4ge e (by simpa using he)

/-- `Query.order_by`: a pure clone plus a fresh `Ordering` value — reads
preserved, clone structure fresh. -/
lemma pyOrderBy_ok (h : Heap) (q : QueryObj) (name : String)
    (numeric : Bool) :
    h.length ≤ (pyOrderBy h q name numeric).1.length ∧
      (∀ r, r < h.length → (pyOrderBy h q name numeric).1[r]? = h[r]?) ∧
      StructFresh h.length (pyOrderBy h q name numeric).1
        (pyOrderBy h q name numeric).2 := by
  obtain ⟨hpb, hsf⟩ := cloneQuery_spec h q
  exact ⟨hpb.1, hpb.2, hsf⟩

/-- `Query.columns`: clone plus (possibly) a fresh extended string list —
reads preserved, result structure fresh. -/
lemma pyColumns_ok (h : Heap) (q : QueryObj) (names : List String) :
    h.length ≤ (pyColumns h q names).1.length ∧
      (∀ r, r < h.length → (pyColumns h q names).1[r]? = h[r]?) ∧
      StructFresh h.length (pyColumns h q names).1
        (pyColumns h q names).2 := by
  obtain ⟨hpb, hge2, hlt2, ⟨es2, hes2, hes2ge⟩, hcols, hms⟩ := cloneQuery_ok h q
  set c0 := cloneQuery h q with hc0
  cases names with
  | nil =>
    obtain ⟨hpb2, hsf⟩ := cloneQuery_spec h q
    obtain ⟨hf1, hf2, hf3, hf4, hf5, hf6⟩ := hsf
    have hcolnone : ∀ cr, (pyColumns h q []).2.columns = some cr →
        h.length ≤ cr := fun cr hcr => Option.noConfusion hcr
    exact ⟨hpb2.1, hpb2.2, hf1, hf2, hcolnone, hf4, hf5, hf6⟩
  | cons nm rest =>
    obtain ⟨hl1, hl2⟩ :=
      columnsLoop_spec (nm :: rest) (nm :: rest)
        (halloc c0.1 (Cell.cstrs [])).1 (halloc c0.1 (Cell.cstrs [])).2
    set hC := columnsLoop (halloc c0.1 (Cell.cstrs [])).1
      (halloc c0.1 (Cell.cstrs [])).2 (nm :: rest) (nm :: rest) with hhC
    have hres : pyColumns h q (nm :: rest) =
        (hC, { c0.2 with columns := some (halloc c0.1 (Cell.cstrs [])).2 }) :=
      rfl
    rw [hres]
    dsimp only
    have halen : (halloc c0.1 (Cell.cstrs [])).1.length = c0.1.length + 1 := by
      simp [halloc]
    have haref : (halloc c0.1 (Cell.cstrs [])).2 = c0.1.length := rfl
    have hT : ∀ i, i < c0.1.length → hC[i]? = c0.1[i]? := by
      intro i hi
      rw [hl2 i (by omega) (by omega), halloc, List.getElem?_append,
        if_pos hi]
    have hreads : ∀ r, r < h.length → hC[r]? = h[r]? := by
      intro r hr
      rw [hT r (lt_of_lt_of_le hr hpb.1), hpb.2 r hr]
    have hTne : ∀ i, i ≠ c0.2.conditions → i < c0.1.length →
        hC[i]? = c0.1[i]? := fun i _ hi => hT i hi
    obtain ⟨houter, hmscond⟩ :=
      msFresh_transfer h.length c0.1 hC c0.2 hTne hms
    refine ⟨by omega, hreads, hge2, ?_, ?_, fun mr hmr => (hms mr hmr).1,
      houter, hmscond⟩
    · intro e he
      unfold condRefsOf at he
      rw [getCList_mono hT hes2] at he
      exact hes2ge e (by simpa using he)
    · intro cr hcr
      obtain rfl : (halloc c0.1 (Cell.cstrs [])).2 = cr :=
        Option.some.inj hcr
      rw [haref]
      exact hpb.1

/-- The metasearch-materialisation step: its result reference sits after
the clone's conditions list, its list is readable, and its members keep
the clone invariants; reads are untouched. -/
lemma msMaterialize_spec (n : Nat) (H : Heap) (q2 : QueryObj)
    (hn : n ≤ H.length) (hcond : q2.conditions < H.length)
    (hms : ∀ mr, q2.msConds = some mr →
      n ≤ mr ∧ q2.conditions < mr ∧
        ∃ os, getCList H mr = some os ∧
          ∀ o2 ∈ os, n ≤ o2 ∧ q2.conditions < o2 ∧ o2 < mr ∧
            ∃ es, getCList H o2 = some es ∧ ∀ e ∈ es, n ≤ e) :
    n ≤ (msMaterialize H q2).2 ∧
      q2.conditions < (msMaterialize H q2).2 ∧
      (msMaterialize H q2).2 < (msMaterialize H q2).1.length ∧
      H.length ≤ (msMaterialize H q2).1.length ∧
      (∀ i, i < H.length → (msMaterialize H q2).1[i]? = H[i]?) ∧
      ∃ os, getCList (msMaterialize H q2).1 (msMaterialize H q2).2 =
          some os ∧
        ∀ o2 ∈ os, n ≤ o2 ∧ q2.conditions < o2 ∧
          o2 < (msMaterialize H q2).2 ∧
          ∃ es, getCList (msMaterialize H q2).1 o2 = some es ∧
            ∀ e ∈ es, n ≤ e := by
  have hfresh : n ≤ (halloc H (Cell.clist [])).2 ∧
      q2.conditions < (halloc H (Cell.clist [])).2 ∧
      (halloc H (Cell.clist [])).2 < (halloc H (Cell.clist [])).1.length ∧
      H.length ≤ (halloc H (Cell.clist [])).1.length ∧
      (∀ i, i < H.length → (halloc H (Cell.clist [])).1[i]? = H[i]?) ∧
      ∃ os, getCList (halloc H (Cell.clist [])).1
          (halloc H (Cell.clist [])).2 = some os ∧
        ∀ o2 ∈ os, n ≤ o2 ∧ q2.conditions < o2 ∧
          o2 < (halloc H (Cell.clist [])).2 ∧
          ∃ es, getCList (halloc H (Cell.clist [])).1 o2 = some es ∧
            ∀ e ∈ es, n ≤ e := by
    refine ⟨hn, hcond, by simp [halloc], by simp [halloc], ?_,
      [], getCList_concat _ _, by simp⟩
    intro i hi
    rw [halloc]
    dsimp only
    rw [List.getElem?_append, if_pos hi]
  unfold msMaterialize
  cases hq : q2.msConds with
  | none => exact hfresh
  | some r =>
    dsimp only
    cases hl : getCList H r with
    | none => exact hfresh
    | some os0 =>
      cases os0 with
      | nil => exact hfresh
      | cons x xs =>
        dsimp only
        obtain ⟨hmge, hmgt, os, hos, hoselems⟩ := hms r hq
        exact ⟨hmge, hmgt, getCList_lt hos, le_rfl, fun i _ => rfl,
          os, hos, hoselems⟩

/-- `Query.union` / `intersect` / `minus` (`_add_to_metasearch`): when it
succeeds, the heap grows, reads below the original heap are preserved,
and the returned query's structural references are fresh. -/
lemma pyAddToMetasearch_ok (h : Heap) (q other : QueryObj) (mtd : Nat)
    (h2 : Heap) (q2 : QueryObj)
    (hok : pyAddToMetasearch h q other mtd = .ok (h2, q2)) :
    h.length ≤ h2.length ∧
      (∀ r, r < h.length → h2[r]? = h[r]?) ∧
      StructFresh h.length h2 q2 := by
  obtain ⟨hpb, hge2, hlt2, ⟨es2, hes2, hes2ge⟩, hcols, hms⟩ := cloneQuery_ok h q
  set c0 := cloneQuery h q with hc0
  obtain ⟨hmge, hmgt, hmlt, hmlen, hmreads, os, hos, hoselems⟩ :=
    msMaterialize_spec h.length c0.1 c0.2 hpb.1 hlt2 hms
  set ms := msMaterialize c0.1 c0.2 with hmsd
  obtain ⟨hpbO, hgeO, hltO, ⟨esO, hesO, hesOge⟩, hcolsO, hmsO⟩ :=
    cloneQuery_ok ms.1 other
  set oc := cloneQuery ms.1 other with hocd
  have hdef : pyAddToMetasearch h q other mtd =
      (if !(c0.2.msType == Option.none || c0.2.msType == some mtd) then
        .error (.assertionError "You can not mix union with intersect or minus")
      else
        .ok (appendToList oc.1 ms.2 oc.2.conditions,
          { c0.2 with msConds := some ms.2, msType := some mtd })) := rfl
  rw [hdef] at hok
  split at hok
  · exact Except.noConfusion hok
  · injection hok with hp
    obtain ⟨rfl, rfl⟩ := Prod.mk.inj hp
    have hosO : getCList oc.1 ms.2 = some os :=
      getCList_mono (fun i hi => hpbO.2 i hi) hos
    have happ : appendToList oc.1 ms.2 oc.2.conditions =
        hset oc.1 ms.2 (Cell.clist (os ++ [oc.2.conditions])) := by
      unfold appendToList
      rw [getCList_eq_some.mp hosO]
    rw [happ]
    have hlenO : h.length ≤ oc.1.length :=
      le_trans (le_trans hpb.1 hmlen) hpbO.1
    have hlenset : (hset oc.1 ms.2
        (Cell.clist (os ++ [oc.2.conditions]))).length = oc.1.length := by
      simp [hset]
    have hTne : ∀ i, i ≠ ms.2 → i < ms.1.length →
        (hset oc.1 ms.2 (Cell.clist (os ++ [oc.2.conditions])))[i]? =
          ms.1[i]? := by
      intro i hne hi
      rw [hset, List.getElem?_set_ne (fun hh => hne hh.symm), hpbO.2 i hi]
    have hreads : ∀ r, r < h.length →
        (hset oc.1 ms.2 (Cell.clist (os ++ [oc.2.conditions])))[r]? =
          h[r]? := by
      intro r hr
      rw [hTne r (by omega) (lt_of_lt_of_le (lt_of_lt_of_le hr hpb.1) hmlen),
        hmreads r (lt_of_lt_of_le hr hpb.1), hpb.2 r hr]
    have hselfeq : getCList (hset oc.1 ms.2
        (Cell.clist (os ++ [oc.2.conditions]))) ms.2 =
        some (os ++ [oc.2.conditions]) := by
      apply getCList_eq_some.mpr
      exact getElem?_set_self_of_lt (lt_of_lt_of_le hmlt hpbO.1)
    refine ⟨by omega, hreads, hge2, ?_, hcols, ?_, ?_, ?_⟩
    · -- conditions list of the copy: untouched, fresh members
      intro e he
      unfold condRefsOf at he
      have : getCList (hset oc.1 ms.2
          (Cell.clist (os ++ [oc.2.conditions]))) c0.2.conditions =
          some es2 := by
        apply getCList_eq_some.mpr
        rw [hTne c0.2.conditions (by omega) (lt_of_lt_of_le hlt2 hmlen),
          hmreads c0.2.conditions hlt2]
        exact getCList_eq_some.mp hes2
      rw [this] at he
      exact hes2ge e (by simpa using he)
    · -- the metasearch list reference is fresh
      intro mr hmr
      obtain rfl : ms.2 = mr := Option.some.inj hmr
      exact hmge
    · -- outer members: the kept branches plus the freshly cloned one
      intro o2 ho2
      unfold msOuterRefs at ho2
      dsimp only at ho2
      rw [hselfeq] at ho2
      simp only [Option.getD_some] at ho2
      rcases List.mem_append.mp ho2 with hmem | hmem
      · exact (hoselems o2 hmem).1
      · simp only [List.mem_singleton] at hmem
        subst hmem
        exact le_trans (le_trans hpb.1 hmlen) hgeO
    · -- inner condition references
      intro e he
      unfold msCondRefs msOuterRefs at he
      dsimp only at he
      rw [hselfeq] at he
      simp only [Option.getD_some, List.mem_flatten, List.mem_map] at he
      obtain ⟨l, ⟨o2, ho2, rfl⟩, hel⟩ := he
      rcases List.mem_append.mp ho2 with hmem | hmem
      · obtain ⟨hoge, hogt, holt, esI, hesI, hesIge⟩ := hoselems o2 hmem
        have : getCList (hset oc.1 ms.2
            (Cell.clist (os ++ [oc.2.conditions]))) o2 = some esI := by
          apply getCList_eq_some.mpr
          rw [hTne o2 (by omega) (lt_trans holt hmlt)]
          exact getCList_eq_some.mp hesI
        rw [this] at hel
        exact hesIge e (by simpa using hel)
      · simp only [List.mem_singleton] at hmem
        subst hmem
        have : getCList (hset oc.1 ms.2
            (Cell.clist (os ++ [oc.2.conditions]))) oc.2.conditions =
            some esO := by
          apply getCList_eq_some.mpr
          rw [hset, List.getElem?_set_ne (by omega : ms.2 ≠ oc.2.conditions)]
          exact getCList_eq_some.mp hesO
        rw [this] at hel
        refine le_trans (le_trans hpb.1 hmlen) (hesOge e (by simpa using hel))

/-- A condition that observes successfully lives in the heap, as does the
expression object it refers to. -/
lemma obsCond_refs {h : Heap} {r : Nat} {c : CondObs}
    (hc : obsCond h r = some c) :
    r < h.length ∧ ∀ er, condExprRef h r = some er → er < h.length := by
  unfold obsCond at hc
  cases hr : h[r]? with
  | none => rw [hr] at hc; cases hc
  | some cell =>
    rw [hr] at hc
    cases cell with
    | ccond nm lk e g =>
      dsimp only at hc
      cases he : h[e]? with
      | none => rw [he] at hc; cases hc
      | some ec =>
        refine ⟨getElem?_lt hr, ?_⟩
        intro er her
        unfold condExprRef at her
        rw [hr] at her
        dsimp only at her
        obtain rfl := Option.some.inj her
        exact getElem?_lt he
    | clist es => dsimp only at hc; cases hc
    | cexpr v => dsimp only at hc; cases hc
    | cstrs es => dsimp only at hc; cases hc

lemma obsConds_elem {h : Heap} {rs : List Nat} {cs : List CondObs}
    (hc : obsConds h rs = some cs) :
    ∀ r ∈ rs, ∃ c, obsCond h r = some c := by
  induction rs generalizing cs with
  | nil => intro r hr; cases hr
  | cons a rest ih =>
    unfold obsConds at hc
    cases ha : obsCond h a with
    | none => rw [ha] at hc; cases hc
    | some c0 =>
      rw [ha] at hc
      cases hrest : obsConds h rest with
      | none => rw [hrest] at hc; cases hc
      | some cs0 =>
        intro r hr
        rcases List.mem_cons.mp hr with rfl | hmem
        · exact ⟨c0, ha⟩
        · exact ih hrest r hmem

lemma obsMsLists_elem {h : Heap} {rs : List Nat} {cs : List (List CondObs)}
    (hc : obsMsLists h rs = some cs) :
    ∀ r ∈ rs, ∃ inner cs0, getCList h r = some inner ∧
      obsConds h inner = some cs0 := by
  induction rs generalizing cs with
  | nil => intro r hr; cases hr
  | cons a rest ih =>
    unfold obsMsLists at hc
    cases ha : getCList h a with
    | none => rw [ha] at hc; cases hc
    | some inner =>
      rw [ha] at hc
      dsimp only at hc
      cases hin : obsConds h inner with
      | none => rw [hin] at hc; cases hc
      | some cs0 =>
        rw [hin] at hc
        cases hrest : obsMsLists h rest with
        | none => rw [hrest] at hc; cases hc
        | some rests =>
          intro r hr
          rcases List.mem_cons.mp hr with rfl | hmem
          · exact ⟨inner, cs0, ha, hin⟩
          · exact ih hrest r hmem

/-- Decomposition of a successful `obsQuery` into the component reads. -/
lemma obsQuery_parts {h : Heap} {q : QueryObj} {o : QueryObs}
    (ho : obsQuery h q = some o) :
    (∃ condRefs cs, getCList h q.conditions = some condRefs ∧
      obsConds h condRefs = some cs) ∧
    (∀ cr, q.columns = some cr → ∃ ss, getStrs h cr = some ss) ∧
    (∀ mr, q.msConds = some mr → ∃ orefs ms0, getCList h mr = some orefs ∧
      obsMsLists h orefs = some ms0) := by
  unfold obsQuery at ho
  cases hcr : getCList h q.conditions with
  | none => rw [hcr] at ho; cases ho
  | some condRefs =>
    rw [hcr] at ho
    dsimp only at ho
    cases hconds : obsConds h condRefs with
    | none => rw [hconds] at ho; cases ho
    | some conds =>
      rw [hconds] at ho
      cases hcols : obsColumns h q with
      | none => rw [hcols] at ho; cases ho
      | some cols =>
        rw [hcols] at ho
        cases hms : obsMs h q with
        | none => rw [hms] at ho; cases ho
        | some ms =>
          refine ⟨⟨condRefs, conds, rfl, hconds⟩, ?_, ?_⟩
          · intro cr hcrq
            unfold obsColumns at hcols
            rw [hcrq] at hcols
            dsimp only at hcols
            cases hss : getStrs h cr with
            | none => rw [hss] at hcols; cases hcols
            | some ss => exact ⟨ss, rfl⟩
          · intro mr hmrq
            unfold obsMs at hms
            rw [hmrq] at hms
            dsimp only at hms
            cases horefs : getCList h mr with
            | none => rw [horefs] at hms; cases hms
            | some orefs =>
              rw [horefs] at hms
              dsimp only at hms
              cases hin : obsMsLists h orefs with
              | none => rw [hin] at hms; cases hms
              | some inner => exact ⟨orefs, inner, rfl, hin⟩

/-- Every directly or metasearch-reachable condition of an observable
query observes successfully. -/
lemma query_cond_obs {h : Heap} {q : QueryObj} {o : QueryObs}
    (ho : obsQuery h q = some o) :
    ∀ e ∈ condRefsOf h q ++ msCondRefs h q, ∃ c, obsCond h e = some c := by
  obtain ⟨⟨condRefs, cs, hcr, hconds⟩, hcols, hms⟩ := obsQuery_parts ho
  intro e he
  rcases List.mem_append.mp he with he | he
  · unfold condRefsOf at he
    rw [hcr] at he
    exact obsConds_elem hconds e (by simpa using he)
  · unfold msCondRefs msOuterRefs at he
    cases hqm : q.msConds with
    | none => rw [hqm] at he; simp at he
    | some mr =>
      rw [hqm] at he
      dsimp only at he
      obtain ⟨orefs, ms0, horefs, hls⟩ := hms mr hqm
      rw [horefs] at he
      simp only [Option.getD_some, List.mem_flatten, List.mem_map] at he
      obtain ⟨l, ⟨o2, ho2, rfl⟩, hel⟩ := he
      obtain ⟨inner, cs0, hinner, hobs⟩ := obsMsLists_elem hls o2 ho2
      rw [hinner] at hel
      exact obsConds_elem hobs e (by simpa using hel)

/-- Every reference reachable from an observable query lives inside the
heap. -/
lemma refsOf_lt {h : Heap} {q : QueryObj} {o : QueryObs}
    (ho : obsQuery h q = some o) : ∀ r ∈ refsOf h q, r < h.length := by
  obtain ⟨⟨condRefs, cs, hcr, hconds⟩, hcols, hms⟩ := obsQuery_parts ho
  have hcondObs := query_cond_obs ho
  have hOuterInner : ∀ o2 ∈ msOuterRefs h q,
      ∃ inner, getCList h o2 = some inner := by
    intro o2 ho2
    unfold msOuterRefs at ho2
    cases hqm : q.msConds with
    | none => rw [hqm] at ho2; simp at ho2
    | some mr =>
      rw [hqm] at ho2
      dsimp only at ho2
      obtain ⟨orefs, ms0, horefs, hls⟩ := hms mr hqm
      rw [horefs] at ho2
      obtain ⟨inner, cs0, hi, _⟩ := obsMsLists_elem hls o2 (by simpa using ho2)
      exact ⟨inner, hi⟩
  intro r hr
  unfold refsOf at hr
  rcases List.mem_append.mp hr with hr | hr
  · unfold structRefsOf at hr
    rcases List.mem_cons.mp hr with rfl | hr
    · exact getCList_lt hcr
    · rcases List.mem_append.mp hr with hr | he
      · rcases List.mem_append.mp hr with hr | ho2
        · rcases List.mem_append.mp hr with hr | hmsr
          · rcases List.mem_append.mp hr with hcm | hcol
            · exact (obsCond_refs
                (Classical.choose_spec (hcondObs r
                  (List.mem_append.mpr (Or.inl hcm))))).1
            · rcases hq : q.columns with _ | cr
              · rw [hq] at hcol; simp at hcol
              · rw [hq] at hcol
                simp only [List.mem_singleton] at hcol
                subst hcol
                obtain ⟨ss, hss⟩ := hcols r hq
                exact getStrs_lt hss
          · rcases hq : q.msConds with _ | mr
            · rw [hq] at hmsr; simp at hmsr
            · rw [hq] at hmsr
              simp only [List.mem_singleton] at hmsr
              subst hmsr
              obtain ⟨orefs, ms0, horefs, _⟩ := hms r hq
              exact getCList_lt horefs
        · obtain ⟨inner, hi⟩ := hOuterInner r ho2
          exact getCList_lt hi
      · exact (obsCond_refs
          (Classical.choose_spec (hcondObs r
            (List.mem_append.mpr (Or.inr he))))).1
  · unfold exprRefsOf at hr
    obtain ⟨e, he, her⟩ := List.mem_filterMap.mp hr
    obtain ⟨c, hobs⟩ := hcondObs e he
    exact (obsCond_refs hobs).2 r her

lemma condExprRef_congr {h h2 : Heap} {r : Nat}
    (hp : ∀ i, i < h.length → h2[i]? = h[i]?) (hr : r < h.length) :
    condExprRef h2 r = condExprRef h r := by
  unfold condExprRef
  rw [hp r hr]

/-- A heap evolution preserving every read of the original heap leaves an
observable query reaching exactly the same references. -/
lemma refsOf_eq {h h2 : Heap} {q : QueryObj} {o : QueryObs}
    (hp : ∀ i, i < h.length → h2[i]? = h[i]?)
    (ho : obsQuery h q = some o) : refsOf h2 q = refsOf h q := by
  obtain ⟨⟨condRefs, cs, hcr, hconds⟩, hcols, hms⟩ := obsQuery_parts ho
  have hcondObs := query_cond_obs ho
  have hOuterInner : ∀ o2 ∈ msOuterRefs h q,
      ∃ inner, getCList h o2 = some inner := by
    intro o2 ho2
    unfold msOuterRefs at ho2
    cases hqm : q.msConds with
    | none => rw [hqm] at ho2; simp at ho2
    | some mr =>
      rw [hqm] at ho2
      dsimp only at ho2
      obtain ⟨orefs, ms0, horefs, hls⟩ := hms mr hqm
      rw [horefs] at ho2
      obtain ⟨inner, cs0, hi, _⟩ := obsMsLists_elem hls o2 (by simpa using ho2)
      exact ⟨inner, hi⟩
  have hcondRefs : condRefsOf h2 q = condRefsOf h q := by
    unfold condRefsOf
    rw [hcr, getCList_mono hp hcr]
  have houter : msOuterRefs h2 q = msOuterRefs h q := by
    unfold msOuterRefs
    cases hqm : q.msConds with
    | none => rfl
    | some mr =>
      dsimp only
      obtain ⟨orefs, ms0, horefs, _⟩ := hms mr hqm
      rw [horefs, getCList_mono hp horefs]
  have hmscond : msCondRefs h2 q = msCondRefs h q := by
    unfold msCondRefs
    rw [houter]
    congr 1
    apply List.map_congr_left
    intro o2 ho2
    obtain ⟨inner, hi⟩ := hOuterInner o2 ho2
    rw [hi, getCList_mono hp hi]
  have hexpr : exprRefsOf h2 q = exprRefsOf h q := by
    unfold exprRefsOf
    rw [hcondRefs, hmscond]
    apply List.filterMap_congr
    intro e he
    obtain ⟨c, hobs⟩ := hcondObs e he
    exact condExprRef_congr hp (obsCond_refs hobs).1
  unfold refsOf structRefsOf
  rw [hcondRefs, houter, hmscond, hexpr]

/-- Consequence of freshness: anything both queries reach in common is an
expression object of the new query (the only references `_clone` copies
verbatim). -/
lemma shared_sub_expr {h h2 : Heap} {q q2 : QueryObj} {o : QueryObs}
    (hp : ∀ i, i < h.length → h2[i]? = h[i]?)
    (ho : obsQuery h q = some o)
    (hsf : StructFresh h.length h2 q2) :
    ∀ s ∈ sharedMutableRefs h2 q q2, s ∈ exprRefsOf h2 q2 := by
  intro s hs
  unfold sharedMutableRefs at hs
  obtain ⟨hsq, hpred⟩ := List.mem_filter.mp hs
  simp only [Bool.and_eq_true, decide_eq_true_eq] at hpred
  obtain ⟨hsq2, _⟩ := hpred
  have hlt : s < h.length := by
    rw [refsOf_eq hp ho] at hsq
    exact refsOf_lt ho s hsq
  unfold refsOf at hsq2
  rcases List.mem_append.mp hsq2 with hstruct | hexpr
  · have := structRefs_ge_of_fresh hsf s hstruct
    omega
  · exact hexpr

/-- C7 (amended): for every query whose observable state (conditions with
negate flags and expression values, ordering, column projection,
metasearch type and metasearch condition lists) reads successfully,
`filter` / `exclude` (`_filter`), `order_by`, `columns` and `union` /
`intersect` / `minus` (`_add_to_metasearch`, when it succeeds) leave that
observable state unchanged; the returned query does share mutable state
with the original, but only expression objects of its conditions
(`Condition._clone` is `copy.copy`, which copies the `expr` reference
verbatim), never a list, condition or column-list object. -/
theorem c7_clone_isolation (h : Heap) (q other : QueryObj) (o : QueryObs)
    (neg : Bool) (args : List Nat) (kwargs : List (String × PyExpr))
    (name : String) (numeric : Bool) (names : List String) (mtd : Nat)
    (ho : obsQuery h q = some o) :
    (obsQuery (pyFilter h q neg args kwargs).1 q = some o ∧
      ∀ s ∈ sharedMutableRefs (pyFilter h q neg args kwargs).1 q
          (pyFilter h q neg args kwargs).2,
        s ∈ exprRefsOf (pyFilter h q neg args kwargs).1
          (pyFilter h q neg args kwargs).2) ∧
    (obsQuery (pyOrderBy h q name numeric).1 q = some o ∧
      ∀ s ∈ sharedMutableRefs (pyOrderBy h q name numeric).1 q
          (pyOrderBy h q name numeric).2,
        s ∈ exprRefsOf (pyOrderBy h q name numeric).1
          (pyOrderBy h q name numeric).2) ∧
    (obsQuery (pyColumns h q names).1 q = some o ∧
      ∀ s ∈ sharedMutableRefs (pyColumns h q names).1 q
          (pyColumns h q names).2,
        s ∈ exprRefsOf (pyColumns h q names).1 (pyColumns h q names).2) ∧
    (∀ h2 q2, pyAddToMetasearch h q other mtd = .ok (h2, q2) →
      obsQuery h2 q = some o ∧
        ∀ s ∈ sharedMutableRefs h2 q q2, s ∈ exprRefsOf h2 q2) := by
  refine ⟨?_, ?_, ?_, ?_⟩
  · obtain ⟨hl, hp, hsf⟩ := pyFilter_ok h q neg args kwargs
    exact ⟨obsQuery_mono hp ho, shared_sub_expr hp ho hsf⟩
  · obtain ⟨hl, hp, hsf⟩ := pyOrderBy_ok h q name numeric
    exact ⟨obsQuery_mono hp ho, shared_sub_expr hp ho hsf⟩
  · obtain ⟨hl, hp, hsf⟩ := pyColumns_ok h q names
    exact ⟨obsQuery_mono hp ho, shared_sub_expr hp ho hsf⟩
  · intro h2 q2 hok
    obtain ⟨hl, hp, hsf⟩ := pyAddToMetasearch_ok h q other mtd h2 q2 hok
    exact ⟨obsQuery_mono hp ho, shared_sub_expr hp ho hsf⟩

/-- C7 (counterexample to the claim as stated): `q.filter()` on a query
whose condition has a list-valued (mutable) expression returns a query
that shares that expression object — mutable state — with the original,
so the returned query does not share *no* mutable state with `q`. -/
theorem c7_counterexample :
    sharedMutableRefs (pyFilter exampleHeap exampleQuery false [] []).1
        exampleQuery (pyFilter exampleHeap exampleQuery false [] []).2 =
      [0] ∧
    isMutableCell (pyFilter exampleHeap exampleQuery false [] []).1 0 =
      true := by
  decide

/-- C7 (witness): the amended theorem applied to the one-condition example
query, with `filter()`, `order_by("-stock")`, `columns("name")` and
`union` against itself. -/
theorem c7_witness :
    obsQuery exampleHeap exampleQuery = some exampleObs ∧
    ((obsQuery (pyFilter exampleHeap exampleQuery false [] []).1
        exampleQuery = some exampleObs ∧
      ∀ s ∈ sharedMutableRefs (pyFilter exampleHeap exampleQuery false [] []).1
          exampleQuery (pyFilter exampleHeap exampleQuery false [] []).2,
        s ∈ exprRefsOf (pyFilter exampleHeap exampleQuery false [] []).1
          (pyFilter exampleHeap exampleQuery false [] []).2) ∧
    (obsQuery (pyOrderBy exampleHeap exampleQuery "-stock" true).1
        exampleQuery = some exampleObs ∧
      ∀ s ∈ sharedMutableRefs
          (pyOrderBy exampleHeap exampleQuery "-stock" true).1 exampleQuery
          (pyOrderBy exampleHeap exampleQuery "-stock" true).2,
        s ∈ exprRefsOf (pyOrderBy exampleHeap exampleQuery "-stock" true).1
          (pyOrderBy exampleHeap exampleQuery "-stock" true).2) ∧
    (obsQuery (pyColumns exampleHeap exampleQuery ["name"]).1 exampleQuery =
        some exampleObs ∧
      ∀ s ∈ sharedMutableRefs (pyColumns exampleHeap exampleQuery ["name"]).1
          exampleQuery (pyColumns exampleHeap exampleQuery ["name"]).2,
        s ∈ exprRefsOf (pyColumns exampleHeap exampleQuery ["name"]).1
          (pyColumns exampleHeap exampleQuery ["name"]).2) ∧
    (∀ h2 q2,
      pyAddToMetasearch exampleHeap exampleQuery exampleQuery 0 =
        .ok (h2, q2) →
      obsQuery h2 exampleQuery = some exampleObs ∧
        ∀ s ∈ sharedMutableRefs h2 exampleQuery q2,
          s ∈ exprRefsOf h2 q2)) :=
  ⟨by decide,
    c7_clone_isolation exampleHeap exampleQuery exampleQuery exampleObs
      false [] [] "-stock" true ["name"] 0 (by decide)⟩

lemma probe_stop {table : List (Option String)} {v : String}
    {fuel i p j : Nat} (h : probeLoop table v fuel i p = some j) :
    table[j]? = some Option.none ∨ table[j]? = some (some v) := by
  induction fuel generalizing i p with
  | zero => cases h
  | succ fuel ih =>
    unfold probeLoop at h
    cases hs : table[i % 8]? with
    | none => rw [hs] at h; cases h
    | some slot =>
      rw [hs] at h
      cases slot with
      | none =>
        dsimp only at h
        obtain rfl := Option.some.inj h
        exact Or.inl hs
      | some w =>
        dsimp only at h
        by_cases hw : (w == v) = true
        · rw [if_pos hw] at h
          obtain rfl := Option.some.inj h
          have hwv : w = v := eq_of_beq hw
          subst hwv
          exact Or.inr hs
        · rw [if_neg hw] at h
          exact ih h

/-- Probing is stable under writes that keep every occupied slot: the
slots visited before the hit were occupied and stay so. -/
lemma probe_mono {table table2 : List (Option String)} {v : String}
    {fuel i p j : Nat}
    (hkeep : ∀ (s : Nat) (x : String), table[s]? = some (some x) →
      table2[s]? = some (some x))
    (h : probeLoop table v fuel i p = some j)
    (hj : table[j]? = some (some v)) :
    probeLoop table2 v fuel i p = some j := by
  induction fuel generalizing i p with
  | zero => cases h
  | succ fuel ih =>
    unfold probeLoop at h ⊢
    cases hs : table[i % 8]? with
    | none => rw [hs] at h; cases h
    | some slot =>
      rw [hs] at h
      cases slot with
      | none =>
        dsimp only at h
        obtain rfl := Option.some.inj h
        rw [hs] at hj
        exact Option.noConfusion (Option.some.inj hj)
      | some w =>
        dsimp only at h
        by_cases hw : (w == v) = true
        · rw [if_pos hw] at h
          obtain rfl := Option.some.inj h
          rw [hkeep (i % 8) w hs]
          dsimp only
          rw [if_pos hw]
        · rw [if_neg hw] at h
          rw [hkeep (i % 8) w hs]
          dsimp only
          rw [if_neg hw]
          exact ih h

/-- Writing the probed-to empty slot makes the same probe find it as a
match. -/
lemma probe_set_found {table : List (Option String)} {v : String}
    {fuel i p j : Nat}
    (h : probeLoop table v fuel i p = some j)
    (hj : table[j]? = some Option.none) :
    probeLoop (table.set j (some v)) v fuel i p = some j := by
  induction fuel generalizing i p with
  | zero => cases h
  | succ fuel ih =>
    unfold probeLoop at h ⊢
    cases hs : table[i % 8]? with
    | none => rw [hs] at h; cases h
    | some slot =>
      rw [hs] at h
      cases slot with
      | none =>
        dsimp only at h
        obtain rfl := Option.some.inj h
        have hlt : i % 8 < table.length :=
          (List.getElem?_eq_some_iff.mp hs).1
        have hset : (table.set (i % 8) (some v))[i % 8]? = some (some v) := by
          simp [List.getElem?_set_self, hlt]
        rw [hset]
        dsimp only
        rw [if_pos (by simp)]
      | some w =>
        dsimp only at h
        by_cases hw : (w == v) = true
        · rw [if_pos hw] at h
          obtain rfl := Option.some.inj h
          rw [hs] at hj
          exact Option.noConfusion (Option.some.inj hj)
        · rw [if_neg hw] at h
          have hne : j ≠ i % 8 := by
            intro he
            rw [he, hs] at hj
            exact Option.noConfusion (Option.some.inj hj)
          rw [List.getElem?_set_ne hne, hs]
          dsimp only
          rw [if_neg hw]
          exact ih h

/-- The probe stops at an occupied slot only on a key match. -/
lemma insert_found_eq {table : List (Option String)} {v w : String}
    {i : Nat} (hp : dictProbe table v = some i)
    (hi : table[i]? = some (some w)) : w = v := by
  have hp2 : probeLoop table v 64 (pyHash v) (pyHash v) = some i := hp
  rcases probe_stop hp2 with h1 | h1
  · rw [hi] at h1
    exact absurd (Option.some.inj h1) (by simp)
  · rw [hi] at h1
    exact Option.some.inj (Option.some.inj h1)

lemma tinv_empty : TInv emptyTable [] := by
  have hrep : ∀ (i : Nat) (x : Option String), emptyTable[i]? = some x →
      x = Option.none := by
    intro i x hi
    have hx : x ∈ emptyTable := List.getElem?_mem hi
    exact List.eq_of_mem_replicate hx
  refine ⟨by simp [emptyTable], ?_, ?_, ?_⟩
  · intro v
    constructor
    · intro hv; cases hv
    · rintro ⟨i, hi⟩
      exact Option.noConfusion (hrep i (some v) hi)
  · intro v i j hi hj
    exact absurd (hrep i (some v) hi) (by simp)
  · intro v i hi
    exact absurd (hrep i (some v) hi) (by simp)

/-- Inserting under the invariant: a hit leaves everything unchanged, a
miss stores `v` in the probed empty slot. -/
lemma tinv_insert {table : List (Option String)} {acc : List String}
    {v : String} {t2 : List (Option String)} (hinv : TInv table acc)
    (h : dictInsertNew table v = some t2) :
    TInv t2 (if acc.contains v then acc else acc ++ [v]) := by
  obtain ⟨hlen, hmem, huniq, hprobe⟩ := hinv
  unfold dictInsertNew at h
  cases hp : dictProbe table v with
  | none => rw [hp] at h; cases h
  | some i =>
    rw [hp] at h
    dsimp only at h
    cases hi : table[i]? with
    | none => rw [hi] at h; cases h
    | some slot =>
      rw [hi] at h
      cases slot with
      | some w =>
        dsimp only at h
        obtain rfl := Option.some.inj h
        have hwv : w = v := insert_found_eq hp hi
        subst hwv
        have hvacc : w ∈ acc := (hmem w).mpr ⟨i, hi⟩
        have hcontains : acc.contains w = true := by simpa using hvacc
        rw [if_pos hcontains]
        exact ⟨hlen, hmem, huniq, hprobe⟩
      | none =>
        dsimp only at h
        obtain rfl := Option.some.inj h
        have hlt : i < table.length := (List.getElem?_eq_some_iff.mp hi).1
        have hvnot : ∀ j : Nat, table[j]? = some (some v) → False := by
          intro j hj
          have h2 := hprobe v j hj
          rw [hp] at h2
          obtain rfl := Option.some.inj h2
          rw [hj] at hi
          exact Option.noConfusion (Option.some.inj hi)
        have hvacc : v ∉ acc := by
          intro hv
          obtain ⟨j, hj⟩ := (hmem v).mp hv
          exact hvnot j hj
        have hcontains : acc.contains v = false := by simpa using hvacc
        rw [if_neg (by rw [hcontains]; exact Bool.false_ne_true)]
        have hself : (table.set i (some v))[i]? = some (some v) := by
          simp [List.getElem?_set_self, hlt]
        have hother : ∀ j : Nat, j ≠ i →
            (table.set i (some v))[j]? = table[j]? := by
          intro j hj
          rw [List.getElem?_set_ne (fun hh => hj hh.symm)]
        refine ⟨by simp [List.length_set, hlen], ?_, ?_, ?_⟩
        · intro x
          constructor
          · intro hx
            rcases List.mem_append.mp hx with hx | hx
            · obtain ⟨j, hj⟩ := (hmem x).mp hx
              have hji : j ≠ i := by
                intro he
                rw [he, hi] at hj
                exact Option.noConfusion (Option.some.inj hj)
              exact ⟨j, by rw [hother j hji]; exact hj⟩
            · simp only [List.mem_singleton] at hx
              subst hx
              exact ⟨i, hself⟩
          · rintro ⟨j, hj⟩
            by_cases hji : j = i
            · subst hji
              rw [hself] at hj
              have : v = x := Option.some.inj (Option.some.inj hj)
              subst this
              exact List.mem_append.mpr (Or.inr (by simp))
            · rw [hother j hji] at hj
              exact List.mem_append.mpr (Or.inl ((hmem x).mpr ⟨j, hj⟩))
        · intro x a b ha hb
          by_cases hai : a = i <;> by_cases hbi : b = i
          · rw [hai, hbi]
          · subst hai
            rw [hself] at ha
            obtain rfl := Option.some.inj (Option.some.inj ha)
            rw [hother b hbi] at hb
            exact absurd hb (fun hb2 => hvnot b hb2)
          · subst hbi
            rw [hself] at hb
            obtain rfl := Option.some.inj (Option.some.inj hb)
            rw [hother a hai] at ha
            exact absurd ha (fun ha2 => hvnot a ha2)
          · rw [hother a hai] at ha
            rw [hother b hbi] at hb
            exact huniq x a b ha hb
        · intro x j hj
          by_cases hji : j = i
          · subst hji
            rw [hself] at hj
            have hxv : v = x := Option.some.inj (Option.some.inj hj)
            subst hxv
            have hp2 : probeLoop table v 64 (pyHash v) (pyHash v) = some j :=
              hp
            exact probe_set_found hp2 hi
          · rw [hother j hji] at hj
            have hpx : probeLoop table x 64 (pyHash x) (pyHash x) = some j :=
              hprobe x j hj
            have hkeep : ∀ (s : Nat) (y : String),
                table[s]? = some (some y) →
                (table.set i (some v))[s]? = some (some y) := by
              intro s y hs
              have hsi : s ≠ i := by
                intro he
                rw [he, hi] at hs
                exact Option.noConfusion (Option.some.inj hs)
              rw [hother s hsi]
              exact hs
            exact probe_mono hkeep hpx hj

/-- One record of `values`: the table evolves exactly as the first-seen
list does. -/
lemma tinv_valuesStep (key : String) (r : List (String × String))
    {table : List (Option String)} {acc : List String}
    {t2 : List (Option String)} (hinv : TInv table acc)
    (h : valuesStep key table r = some t2) :
    TInv t2 (firstSeenStep key acc r) := by
  induction r generalizing table acc with
  | nil =>
    unfold valuesStep at h
    obtain rfl := Option.some.inj h
    exact hinv
  | cons a rest ih =>
    obtain ⟨k, v⟩ := a
    unfold valuesStep at h
    unfold firstSeenStep
    by_cases hk : (k == key) = true
    · rw [if_pos hk] at h
      cases hins : dictInsertNew table v with
      | none => rw [hins] at h; cases h
      | some t1 =>
        rw [hins] at h
        dsimp only at h
        have hinv1 := tinv_insert hinv hins
        by_cases hc : (acc.contains v) = true
        · rw [if_pos hc] at hinv1
          rw [if_neg (by rw [hk, hc]; decide)]
          exact ih hinv1 h
        · have hc2 : acc.contains v = false := by
            revert hc
            cases acc.contains v <;> simp
          rw [if_neg hc] at hinv1
          rw [if_pos (by rw [hk, hc2]; decide)]
          exact ih hinv1 h
    · rw [if_neg hk] at h
      have hk2 : (k == key) = false := by
        revert hk
        cases k == key <;> simp
      rw [if_neg (by rw [hk2]; simp)]
      exact ih hinv h

/-- The record loop of `values` under the invariant. -/
lemma tinv_valuesLoop (key : String)
    (records : List (List (String × String)))
    {table : List (Option String)} {acc : List String}
    {t2 : List (Option String)} (hinv : TInv table acc)
    (h : valuesLoop key table records = some t2) :
    TInv t2 (records.foldl (firstSeenStep key) acc) := by
  induction records generalizing table acc with
  | nil =>
    unfold valuesLoop at h
    obtain rfl := Option.some.inj h
    exact hinv
  | cons r rest ih =>
    unfold valuesLoop at h
    cases hstep : valuesStep key table r with
    | none => rw [hstep] at h; cases h
    | some t1 =>
      rw [hstep] at h
      dsimp only at h
      simp only [List.foldl_cons]
      exact ih (tinv_valuesStep key r hinv hstep) h

lemma mem_dictKeys {table : List (Option String)} {v : String} :
    v ∈ dictKeys table ↔ ∃ i : Nat, table[i]? = some (some v) := by
  unfold dictKeys
  rw [List.mem_filterMap]
  constructor
  · rintro ⟨x, hx, hid⟩
    have hxv : x = some v := hid
    subst hxv
    exact List.mem_iff_getElem?.mp hx
  · rintro ⟨i, hi⟩
    exact ⟨some v, List.mem_iff_getElem?.mpr ⟨i, hi⟩, rfl⟩

lemma nodup_dictKeys (table : List (Option String))
    (huniq : ∀ (v : String) (i j : Nat), table[i]? = some (some v) →
      table[j]? = some (some v) → i = j) : (dictKeys table).Nodup := by
  unfold dictKeys
  induction table with
  | nil => simp
  | cons a rest ih =>
    have huniq2 : ∀ (v : String) (i j : Nat), rest[i]? = some (some v) →
        rest[j]? = some (some v) → i = j := by
      intro v i j hi hj
      have h2 := huniq v (i + 1) (j + 1) (by simpa using hi)
        (by simpa using hj)
      omega
    cases a with
    | none => simpa using ih huniq2
    | some v =>
      show (v :: rest.filterMap id).Nodup
      rw [List.nodup_cons]
      refine ⟨?_, ih huniq2⟩
      intro hvmem
      rw [List.mem_filterMap] at hvmem
      obtain ⟨x, hx, hid⟩ := hvmem
      have hxv : x = some v := hid
      subst hxv
      obtain ⟨i, hi⟩ := List.mem_iff_getElem?.mp hx
      have h0 : (some v :: rest)[0]? = some (some v) := by simp
      have h2 := huniq v 0 (i + 1) h0 (by simpa using hi)
      omega

/-- C8 (amended): `values(key)` materialises the result set and returns
the distinct values observed for the column — no duplicates, and a value
is returned exactly when it occurs in the first-seen list — but in
CPython 2 dict (hash-table slot) order, not in first-seen order. -/
theorem c8_values_distinct (key : String)
    (records : List (List (String × String))) (vs : List String)
    (hv : pyValues key records = some vs) :
    vs.Nodup ∧ ∀ v : String, v ∈ vs ↔ v ∈ firstSeenValues key records := by
  unfold pyValues at hv
  cases hloop : valuesLoop key emptyTable records with
  | none => rw [hloop] at hv; cases hv
  | some t =>
    rw [hloop] at hv
    dsimp only at hv
    obtain rfl := Option.some.inj hv
    obtain ⟨hlen, hmem, huniq, hprobe⟩ :=
      tinv_valuesLoop key records tinv_empty hloop
    refine ⟨nodup_dictKeys t huniq, ?_⟩
    intro v
    rw [mem_dictKeys]
    exact (hmem v).symm

/-- C8 (counterexample to the claim as stated): two records with column
values `b` then `c`; first-seen order is `[b, c]`, but the CPython 2
hashes send `c` to slot 2 and `b` to slot 3 of the 8-slot dict, so
`collected.keys()` — hence `values` — returns `[c, b]`. -/
theorem c8_counterexample :
    pyValues "color" [[("color", "b")], [("color", "c")]] =
      some ["c", "b"] ∧
    firstSeenValues "color" [[("color", "b")], [("color", "c")]] =
      ["b", "c"] ∧
    (["c", "b"] : List String) ≠ ["b", "c"] := by
  refine ⟨by decide, by decide, by decide⟩

/-- C8 (witness): the amended theorem applied to a single record. -/
theorem c8_witness :
    pyValues "color" [[("color", "x"), ("size", "s")]] = some ["x"] ∧
    (["x"] : List String).Nodup ∧
    (∀ v : String, v ∈ (["x"] : List String) ↔
      v ∈ firstSeenValues "color" [[("color", "x"), ("size", "s")]]) := by
  have h := c8_values_distinct "color" [[("color", "x"), ("size", "s")]]
    ["x"] (by decide)
  exact ⟨by decide, h.1, h.2⟩

/-- C10: when the search for a scalar index returns an empty key list,
`q[i]` fails with a plain IndexError from the unguarded `keys[0]` access —
not with a sentinel value and not with a library-defined (`TyrantError`)
kind. -/
theorem c10_scalar_empty_keys (q : QueryData) (i : Int) (mc : MiscCall)
    (oracle : String → String)
    (hplan : getitemScalarPlan q i = .ok mc) :
    getitemScalar q i [] oracle = .error .indexError ∧
      (PyExc.indexError).isTyrantError = false := by
  refine ⟨?_, rfl⟩
  simp [getitemScalar, hplan]
  rfl

/-- C10 (witness): the theorem applied to the condition-free query at
index 0. -/
theorem c10_witness :
    getitemScalar {} 0 [] (fun _ => "") = .error .indexError ∧
      (PyExc.indexError).isTyrantError = false :=
  c10_scalar_empty_keys {} 0 ⟨"search", ["setlimit\u00001\u00000"], 0⟩
    (fun _ => "") (by decide)

end Pyrant
